import Mathlib

/-!
Verification of the discover-queue-process convergence pipeline of the
nlweb-ai/crawler repository, as a shallow embedding in Lean 4.

The embedding follows the Python source:
  * `code/core/worker.py` — payload extraction (`process_json_array`,
    `extract_schema_data_from_url`), job processing (`process_job`) and the
    worker loop's ack/nack decision;
  * `code/core/db.py` — the relational state (`files`, `ids`,
    `processing_errors` tables) and its operations (`update_site_files`,
    `update_file_ids`, `get_file_ids`, `count_id_references`,
    `log_processing_error`, `clear_file_errors`, `get_site_files`);
  * `code/core/vector_db.py` — the Azure Search document key derivation
    (`_prepare_document`, `batch_delete`) including a concrete SHA-256 model;
  * `code/core/master.py` — the enqueueing of removal jobs for files dropped
    by a discovery diff.

Tables are modelled as lists of rows; machine-level concerns (connections,
commits, logging to files) are elided.  Python's dynamically typed JSON
values are modelled by the inductive type `JVal`; values that the extraction
code never inspects structurally (numbers, booleans, null) collapse into the
single constructor `jother`, which is a faithful quotient because the source
only ever tests `isinstance(..., dict)`, `isinstance(..., list)` and
`isinstance(..., str)` and compares values for equality with strings.
-/

namespace Crawler

/-- A parsed JSON value as manipulated by `worker.py`.  Numbers, booleans and
null are never inspected structurally by the extraction code, so they are
collapsed into `jother`. -/
inductive JVal where
  | jstr (s : String)
  | jarr (xs : List JVal)
  | jobj (fields : List (String × JVal))
  | jother
  deriving Repr

mutual

/-- Structural (Python `==`) equality on JSON values. -/
def JVal.beq : JVal → JVal → Bool
  | .jstr a, .jstr b => a == b
  | .jother, .jother => true
  | .jarr as, .jarr bs => JVal.beqList as bs
  | .jobj fs, .jobj gs => JVal.beqFields fs gs
  | _, _ => false

/-- Pointwise equality on lists of JSON values. -/
def JVal.beqList : List JVal → List JVal → Bool
  | [], [] => true
  | a :: as, b :: bs => JVal.beq a b && JVal.beqList as bs
  | _, _ => false

/-- Pointwise equality on the field lists of JSON objects. -/
def JVal.beqFields : List (String × JVal) → List (String × JVal) → Bool
  | [], [] => true
  | (k, v) :: fs, (l, w) :: gs => k == l && JVal.beq v w && JVal.beqFields fs gs
  | _, _ => false

end

mutual

theorem JVal.beq_iff : ∀ a b : JVal, JVal.beq a b = true ↔ a = b
  | .jstr a, .jstr b => by simp [JVal.beq]
  | .jstr _, .jarr _ => by simp [JVal.beq]
  | .jstr _, .jobj _ => by simp [JVal.beq]
  | .jstr _, .jother => by simp [JVal.beq]
  | .jarr _, .jstr _ => by simp [JVal.beq]
  | .jarr as, .jarr bs => by
      simp only [JVal.beq, JVal.jarr.injEq]
      exact JVal.beqList_iff as bs
  | .jarr _, .jobj _ => by simp [JVal.beq]
  | .jarr _, .jother => by simp [JVal.beq]
  | .jobj _, .jstr _ => by simp [JVal.beq]
  | .jobj _, .jarr _ => by simp [JVal.beq]
  | .jobj fs, .jobj gs => by
      simp only [JVal.beq, JVal.jobj.injEq]
      exact JVal.beqFields_iff fs gs
  | .jobj _, .jother => by simp [JVal.beq]
  | .jother, .jstr _ => by simp [JVal.beq]
  | .jother, .jarr _ => by simp [JVal.beq]
  | .jother, .jobj _ => by simp [JVal.beq]
  | .jother, .jother => by simp [JVal.beq]

theorem JVal.beqList_iff : ∀ as bs : List JVal, JVal.beqList as bs = true ↔ as = bs
  | [], [] => by simp [JVal.beqList]
  | [], _ :: _ => by simp [JVal.beqList]
  | _ :: _, [] => by simp [JVal.beqList]
  | a :: as, b :: bs => by
      simp only [JVal.beqList, Bool.and_eq_true, List.cons.injEq]
      exact and_congr (JVal.beq_iff a b) (JVal.beqList_iff as bs)

theorem JVal.beqFields_iff :
    ∀ fs gs : List (String × JVal), JVal.beqFields fs gs = true ↔ fs = gs
  | [], [] => by simp [JVal.beqFields]
  | [], _ :: _ => by simp [JVal.beqFields]
  | _ :: _, [] => by simp [JVal.beqFields]
  | (k, v) :: fs, (l, w) :: gs => by
      simp only [JVal.beqFields, Bool.and_eq_true, List.cons.injEq, Prod.mk.injEq,
        beq_iff_eq, JVal.beq_iff v w, JVal.beqFields_iff fs gs, and_assoc]

end

instance : DecidableEq JVal := fun a b => decidable_of_iff _ (JVal.beq_iff a b)

/-- Python dictionary read `item.get(key)`: `none` when the key is absent. -/
def jget (v : JVal) (k : String) : Option JVal :=
  match v with
  | .jobj fs => fs.lookup k
  | _ => none

/-- The tuple `skip_types` of `worker.py` (lines 36–42). -/
def skip_types : List String :=
  ["ListItem", "ItemList", "Organization", "BreadcrumbList",
   "Breadcrumb", "WebSite", "SearchAction", "SiteNavigationElement",
   "WebPageElement", "WebPage", "NewsMediaOrganization",
   "MerchantReturnPolicy", "ReturnPolicy", "CollectionPage",
   "Brand", "Corporation", "ReadAction"]

/-- Python `t in skip_types`, where `t` is an arbitrary value: equality with a
string succeeds only when `t` itself is a string. -/
def typeInSkip (t : JVal) : Bool :=
  match t with
  | .jstr s => skip_types.contains s
  | _ => false

/-- The skip decision of `process_json_array` (worker.py lines 109–117): skip
when `@type` is a string in `skip_types`, or a list any of whose elements is
in `skip_types`. -/
def shouldSkipByType (itemType : Option JVal) : Bool :=
  match itemType with
  | some (.jstr s) => skip_types.contains s
  | some (.jarr ts) => ts.any typeInSkip
  | _ => false

/-- `process_json_array` (worker.py lines 102–123): keep every dict that has
an `@id` and whose `@type` does not match the skip set; return the kept
`@id`s and the kept objects in traversal order. -/
def process_json_array : List JVal → List JVal × List JVal
  | [] => ([], [])
  | item :: rest =>
    match item with
    | .jobj fs =>
      match fs.lookup "@id" with
      | none => process_json_array rest
      | some idv =>
        if shouldSkipByType (fs.lookup "@type") then process_json_array rest
        else
          let (ids, objs) := process_json_array rest
          (idv :: ids, item :: objs)
    | _ => process_json_array rest

/-- An item survives `process_json_array` exactly when it is a dict carrying
an `@id` whose `@type` is not skipped. -/
def keptItem (item : JVal) : Bool :=
  match item with
  | .jobj fs => (fs.lookup "@id").isSome && !shouldSkipByType (fs.lookup "@type")
  | _ => false

theorem process_json_array_objects_eq (arr : List JVal) :
    (process_json_array arr).2 = arr.filter keptItem := by
  induction arr with
  | nil => rfl
  | cons item rest ih =>
    cases item with
    | jobj fs =>
      cases h : fs.lookup "@id" with
      | none => simp [process_json_array, h, List.filter, keptItem, ih]
      | some idv =>
        by_cases hs : shouldSkipByType (fs.lookup "@type")
        · simp [process_json_array, h, hs, List.filter, keptItem, ih]
        · simp [process_json_array, h, hs, List.filter, keptItem, ih]
    | jstr s => simp [process_json_array, List.filter, keptItem, ih]
    | jarr xs => simp [process_json_array, List.filter, keptItem, ih]
    | jother => simp [process_json_array, List.filter, keptItem, ih]

theorem process_json_array_ids_eq (arr : List JVal) :
    (process_json_array arr).1 =
      ((process_json_array arr).2).filterMap (fun o => jget o "@id") := by
  induction arr with
  | nil => rfl
  | cons item rest ih =>
    cases item with
    | jobj fs =>
      cases h : fs.lookup "@id" with
      | none => simpa [process_json_array, h] using ih
      | some idv =>
        by_cases hs : shouldSkipByType (fs.lookup "@type")
        · simpa [process_json_array, h, hs] using ih
        · simp [process_json_array, h, hs, List.filterMap, jget, ih]
    | jstr s => simpa [process_json_array] using ih
    | jarr xs => simpa [process_json_array] using ih
    | jother => simpa [process_json_array] using ih

/-- C6.  For every payload array, extraction excludes each object whose
`@type` is a string in the skip set, or a list any of whose elements is in
the skip set: such an object is not among the extracted objects, and the
extracted ids are exactly the `@id`s of the extracted (non-skipped) objects,
so the skipped object contributes no id to the result. -/
theorem skip_types_objects_excluded (arr : List JVal) (item : JVal)
    (hmem : item ∈ arr) (hskip : shouldSkipByType (jget item "@type") = true) :
    item ∉ (process_json_array arr).2 ∧
      (process_json_array arr).1 =
        ((process_json_array arr).2).filterMap (fun o => jget o "@id") := by
  refine ⟨?_, process_json_array_ids_eq arr⟩
  rw [process_json_array_objects_eq]
  intro hin
  have hk : keptItem item = true := (List.mem_filter.mp hin).2
  cases item with
  | jobj fs =>
    simp only [keptItem, Bool.and_eq_true, Bool.not_eq_true'] at hk
    simp only [jget] at hskip
    rw [hskip] at hk
    exact absurd hk.2 (by simp)
  | jstr s => simp [keptItem] at hk
  | jarr xs => simp [keptItem] at hk
  | jother => simp [keptItem] at hk

/-- Closed witness for C6 on a concrete payload: a `ListItem` object is
dropped and contributes no id. -/
theorem skip_types_objects_excluded_witness :
    (JVal.jobj [("@id", .jstr "b"), ("@type", .jstr "ListItem")] ∈
        ([JVal.jobj [("@id", .jstr "a"), ("@type", .jstr "Recipe")],
          JVal.jobj [("@id", .jstr "b"), ("@type", .jstr "ListItem")]] : List JVal)) ∧
      JVal.jobj [("@id", .jstr "b"), ("@type", .jstr "ListItem")] ∉
        (process_json_array
          [JVal.jobj [("@id", .jstr "a"), ("@type", .jstr "Recipe")],
           JVal.jobj [("@id", .jstr "b"), ("@type", .jstr "ListItem")]]).2 := by
  refine ⟨by decide, ?_⟩
  exact (skip_types_objects_excluded _ _ (by decide) (by decide)).1

instance : BEq JVal := ⟨JVal.beq⟩

instance : LawfulBEq JVal where
  eq_of_beq h := (JVal.beq_iff _ _).mp h
  rfl := (JVal.beq_iff _ _).mpr rfl

/-- A value is usable as a Python dict key (hashable): strings, numbers,
booleans and null are; lists and dicts raise `TypeError`. -/
def JVal.hashable : JVal → Bool
  | .jarr _ => false
  | .jobj _ => false
  | _ => true

/-- The `@graph` descent condition of `extract_schema_data_from_url`
(worker.py line 208): the item is a dict with an `@graph` list and without
an `@id`; returns the graph array when it applies. -/
def graphArray (obj : JVal) : Option (List JVal) :=
  match obj with
  | .jobj fs =>
    match fs.lookup "@graph" with
    | some (.jarr g) => if (fs.lookup "@id").isSome then none else some g
    | _ => none
  | _ => none

/-- All `(id, object)` pairs offered to the `unique_objects` dict, in source
order: first the pairs from the top-level array, then for each top-level
object the pairs of its `@graph` array (worker.py lines 201–212). -/
def extractPairs (json_data : List JVal) : List (JVal × JVal) :=
  ((process_json_array json_data).1).zip ((process_json_array json_data).2) ++
    json_data.flatMap (fun obj =>
      match graphArray obj with
      | some g => ((process_json_array g).1).zip ((process_json_array g).2)
      | none => [])

/-- `if obj_id not in unique_objects: unique_objects[obj_id] = obj` — keep
the first occurrence of each id. -/
def insertUnique (m : List (JVal × JVal)) (k v : JVal) : List (JVal × JVal) :=
  if m.any (fun p => p.1 == k) then m else m ++ [(k, v)]

/-- Fold all pairs into the insertion-ordered `unique_objects` dict. -/
def dedupPairs (ps : List (JVal × JVal)) : List (JVal × JVal) :=
  ps.foldl (fun m p => insertUnique m p.1 p.2) []

/-- Outcome of `requests.get` plus the parse step inside
`extract_schema_data_from_url`:
`reqError` is a `requests.RequestException` (network failure, or a non-2xx
status raised by `raise_for_status`); `parseError` is the `ValueError`
raised by `response.json()` on malformed JSON; `ok body` is a successfully
parsed JSON body. -/
inductive FetchResult where
  | reqError
  | parseError
  | ok (body : JVal)
  deriving DecidableEq, Repr

/-- `extract_schema_data_from_url` (worker.py lines 125–231), JSON content
branch (the TSV branch differs only in how the payload text is split into
JSON arrays and is not needed by any claim).  Every exception — network
error, non-2xx HTTP status via `raise_for_status`, JSON parse error, and
the `TypeError` raised when an unhashable `@id` is used as a dict key — is
caught inside the function, which then returns `([], [])`; the function
never raises to its caller. -/
def extract_schema_data_from_url (r : FetchResult) : List JVal × List JVal :=
  match r with
  | .reqError => ([], [])
  | .parseError => ([], [])
  | .ok body =>
    match body with
    | .jstr _ => ([], [])
    | .jother => ([], [])
    | _ =>
      let json_data := match body with | .jarr xs => xs | x => [x]
      let pairs := extractPairs json_data
      if pairs.any (fun p => !p.1.hashable) then ([], [])
      else
        let m := dedupPairs pairs
        (m.map (fun p => p.1), m.map (fun p => p.2))

/-- Every pair that `process_json_array` produces couples an object with its
own `@id`, and the object was not skipped. -/
theorem process_json_array_zip_spec (arr : List JVal) :
    ∀ p ∈ ((process_json_array arr).1).zip ((process_json_array arr).2),
      jget p.2 "@id" = some p.1 ∧ shouldSkipByType (jget p.2 "@type") = false := by
  induction arr with
  | nil => intro p hp; simp [process_json_array] at hp
  | cons item rest ih =>
    intro p hp
    cases item with
    | jobj fs =>
      cases h : fs.lookup "@id" with
      | none => exact ih p (by simpa [process_json_array, h] using hp)
      | some idv =>
        by_cases hs : shouldSkipByType (fs.lookup "@type")
        · exact ih p (by simpa [process_json_array, h, hs] using hp)
        · simp only [process_json_array, h, hs, Bool.false_eq_true, if_false,
            List.zip_cons_cons, List.mem_cons] at hp
          rcases hp with hp | hp
          · subst hp
            exact ⟨by simp [jget, h], by simpa [jget] using hs⟩
          · exact ih p hp
    | jstr s => exact ih p (by simpa [process_json_array] using hp)
    | jarr xs => exact ih p (by simpa [process_json_array] using hp)
    | jother => exact ih p (by simpa [process_json_array] using hp)

theorem extractPairs_spec (json_data : List JVal) :
    ∀ p ∈ extractPairs json_data,
      jget p.2 "@id" = some p.1 ∧ shouldSkipByType (jget p.2 "@type") = false := by
  intro p hp
  rw [extractPairs, List.mem_append] at hp
  rcases hp with hp | hp
  · exact process_json_array_zip_spec json_data p hp
  · rw [List.mem_flatMap] at hp
    obtain ⟨obj, _, hin⟩ := hp
    cases hg : graphArray obj with
    | none => rw [hg] at hin; simp at hin
    | some g =>
      rw [hg] at hin
      exact process_json_array_zip_spec g p hin

/-- `insertUnique` only ever adds the offered pair. -/
theorem insertUnique_subset (m : List (JVal × JVal)) (k v : JVal) :
    ∀ p ∈ insertUnique m k v, p ∈ m ∨ p = (k, v) := by
  intro p hp
  unfold insertUnique at hp
  by_cases h : m.any (fun p => p.1 == k)
  · rw [if_pos h] at hp; exact Or.inl hp
  · rw [if_neg h, List.mem_append] at hp
    rcases hp with hp | hp
    · exact Or.inl hp
    · exact Or.inr (by simpa using hp)

/-- Every entry of the dedup dict is one of the offered pairs. -/
theorem dedupPairs_subset (ps : List (JVal × JVal)) :
    ∀ p ∈ dedupPairs ps, p ∈ ps := by
  suffices h : ∀ (acc : List (JVal × JVal)),
      ∀ p ∈ ps.foldl (fun m q => insertUnique m q.1 q.2) acc, p ∈ acc ∨ p ∈ ps by
    intro p hp
    rcases h [] p hp with hin | hin
    · simp at hin
    · exact hin
  induction ps with
  | nil => intro acc p hp; exact Or.inl hp
  | cons q qs ih =>
    intro acc p hp
    rcases ih (insertUnique acc q.1 q.2) p hp with hin | hin
    · rcases insertUnique_subset acc q.1 q.2 p hin with hin | hin
      · exact Or.inl hin
      · exact Or.inr (by simp [hin])
    · exact Or.inr (List.mem_cons_of_mem _ hin)

/-- Every object returned by `extract_schema_data_from_url` carries an `@id`
and was not skipped by the skip-type filter. -/
theorem extract_objects_spec (r : FetchResult) :
    ∀ o ∈ (extract_schema_data_from_url r).2,
      (∃ idv, jget o "@id" = some idv) ∧
        shouldSkipByType (jget o "@type") = false := by
  intro o ho
  cases r with
  | reqError => simp [extract_schema_data_from_url] at ho
  | parseError => simp [extract_schema_data_from_url] at ho
  | ok body =>
    have key : ∀ (json_data : List JVal),
        o ∈ ((if (extractPairs json_data).any (fun p => !p.1.hashable)
              then (([], []) : List JVal × List JVal)
              else ((dedupPairs (extractPairs json_data)).map (fun p => p.1),
                    (dedupPairs (extractPairs json_data)).map (fun p => p.2))).2) →
        (∃ idv, jget o "@id" = some idv) ∧
          shouldSkipByType (jget o "@type") = false := by
      intro json_data hin
      by_cases hh : (extractPairs json_data).any (fun p => !p.1.hashable)
      · rw [if_pos hh] at hin; simp at hin
      · rw [if_neg hh] at hin
        simp only [List.mem_map] at hin
        obtain ⟨p, hp, hpo⟩ := hin
        have := extractPairs_spec json_data p (dedupPairs_subset _ p hp)
        subst hpo
        exact ⟨⟨p.1, this.1⟩, this.2⟩
    cases body with
    | jstr s => simp [extract_schema_data_from_url] at ho
    | jother => simp [extract_schema_data_from_url] at ho
    | jarr xs => exact key xs ho
    | jobj fs => exact key [JVal.jobj fs] ho

/-- The ids returned by `extract_schema_data_from_url` are the keys of the
dedup dict, paired positionally with its objects: for every id there is an
object among the extracted objects whose `@id` equals it. -/
theorem extract_ids_have_objects (r : FetchResult) :
    ∀ idv ∈ (extract_schema_data_from_url r).1,
      ∃ o ∈ (extract_schema_data_from_url r).2, jget o "@id" = some idv := by
  intro idv hid
  cases r with
  | reqError => simp [extract_schema_data_from_url] at hid
  | parseError => simp [extract_schema_data_from_url] at hid
  | ok body =>
    have key : ∀ (json_data : List JVal),
        idv ∈ ((if (extractPairs json_data).any (fun p => !p.1.hashable)
              then (([], []) : List JVal × List JVal)
              else ((dedupPairs (extractPairs json_data)).map (fun p => p.1),
                    (dedupPairs (extractPairs json_data)).map (fun p => p.2))).1) →
        ∃ o ∈ ((if (extractPairs json_data).any (fun p => !p.1.hashable)
              then (([], []) : List JVal × List JVal)
              else ((dedupPairs (extractPairs json_data)).map (fun p => p.1),
                    (dedupPairs (extractPairs json_data)).map (fun p => p.2))).2),
          jget o "@id" = some idv := by
      intro json_data hin
      by_cases hh : (extractPairs json_data).any (fun p => !p.1.hashable)
      · rw [if_pos hh] at hin; simp at hin
      · rw [if_neg hh] at hin ⊢
        simp only [List.mem_map] at hin
        obtain ⟨p, hp, hpid⟩ := hin
        refine ⟨p.2, List.mem_map.mpr ⟨p, hp, rfl⟩, ?_⟩
        have := extractPairs_spec json_data p (dedupPairs_subset _ p hp)
        rw [this.1, hpid]
    cases body with
    | jstr s => simp [extract_schema_data_from_url] at hid
    | jother => simp [extract_schema_data_from_url] at hid
    | jarr xs => exact key xs hid
    | jobj fs => exact key [JVal.jobj fs] hid

/-- A row of the `files` table (db.py lines 100–114).  `schema_map`,
`last_read_time` and `number_of_items` are nullable; `is_manual` and
`is_active` default to `0` and `1` on insert. -/
structure FileRow where
  site_url : String
  user_id : String
  file_url : String
  schema_map : Option String
  last_read_time : Option Nat
  number_of_items : Option Nat
  is_manual : Bool
  is_active : Bool
  deriving DecidableEq, Repr

/-- A DELETE statement issued against the `ids` table by `update_file_ids`:
either the wildcard form `DELETE FROM ids WHERE file_url = %s AND user_id =
%s` or the batched form `... AND id IN (...)`. -/
inductive DelOp (α : Type) where
  | wildcard
  | batch (ids : List α)
  deriving DecidableEq, Repr

section IdsTable

variable {α : Type} [DecidableEq α]

/-- `get_file_ids` (db.py lines 227–231): the set of ids associated with a
file for a user.  The `ids` table is a list of `(file_url, user_id, id)`
rows; the Python function returns a set, modelled as a duplicate-free list
(first occurrence order). -/
def get_file_ids (t : List (String × String × α)) (file_url user_id : String) :
    List α :=
  ((t.filter fun r => decide (r.1 = file_url ∧ r.2.1 = user_id)).map
    fun r => r.2.2).dedup

/-- `count_id_references` (db.py lines 278–282):
`SELECT COUNT(*) FROM ids WHERE id = %s AND user_id = %s`. -/
def count_id_references (t : List (String × String × α)) (idv : α)
    (user_id : String) : Nat :=
  (t.filter fun r => decide (r.2.2 = idv ∧ r.2.1 = user_id)).length

/-- Split a list into consecutive batches of `n` elements (the loop
`for i in range(0, len(xs), n): batch = xs[i:i+n]`); a batch size of `0`
degenerates to a single batch (never used by the source). -/
def chunked : Nat → List α → List (List α)
  | _, [] => []
  | 0, x :: xs => [x :: xs]
  | n + 1, x :: xs => (x :: xs).take (n + 1) :: chunked (n + 1) ((x :: xs).drop (n + 1))
termination_by n l => l.length
decreasing_by simp; omega

/-- Apply one DELETE statement to the `ids` table. -/
def applyDelOp (file_url user_id : String) (t : List (String × String × α)) :
    DelOp α → List (String × String × α)
  | .wildcard => t.filter fun r => decide ¬(r.1 = file_url ∧ r.2.1 = user_id)
  | .batch ids =>
      t.filter fun r => decide ¬(r.1 = file_url ∧ r.2.1 = user_id ∧ r.2.2 ∈ ids)

/-- Result of `update_file_ids`: the returned `(added, removed)` lists, the
new `ids` and `files` tables, and the DELETE statements that were issued. -/
structure UpdateFileIdsResult (α : Type) where
  added : List α
  removed : List α
  idsTable : List (String × String × α)
  filesTable : List FileRow
  deleteOps : List (DelOp α)

/-- `update_file_ids` (db.py lines 233–276).  Diffs the authoritative id set
against the stored one; inserts the missing rows; deletes the extraneous
rows — with the wildcard DELETE when `current_ids` is empty, and otherwise
in batches of 500 to stay under SQL Server's 2100-parameter limit; finally
sets `last_read_time = now` and `number_of_items = |current_ids|` on the
file row. -/
def update_file_ids (t : List (String × String × α)) (files : List FileRow)
    (file_url user_id : String) (current_ids : List α) (now : Nat) :
    UpdateFileIdsResult α :=
  let existing_ids := get_file_ids t file_url user_id
  let added := current_ids.filter fun a => decide (a ∉ existing_ids)
  let removed := existing_ids.filter fun a => decide (a ∉ current_ids)
  let t1 := t ++ added.map (fun a => (file_url, user_id, a))
  let ops : List (DelOp α) :=
    if removed = [] then []
    else if current_ids = [] then [DelOp.wildcard]
    else (chunked 500 removed).map DelOp.batch
  let t2 := ops.foldl (fun acc op => applyDelOp file_url user_id acc op) t1
  let files2 := files.map fun r =>
    if r.file_url = file_url ∧ r.user_id = user_id then
      { r with last_read_time := some now, number_of_items := some current_ids.length }
    else r
  ⟨added, removed, t2, files2, ops⟩

theorem mem_get_file_ids {t : List (String × String × α)} {f u : String} {x : α} :
    x ∈ get_file_ids t f u ↔ ∃ r ∈ t, r.1 = f ∧ r.2.1 = u ∧ r.2.2 = x := by
  simp only [get_file_ids, List.mem_dedup, List.mem_map, List.mem_filter,
    decide_eq_true_eq]
  constructor
  · rintro ⟨r, ⟨hrt, hf, hu⟩, hx⟩
    exact ⟨r, hrt, hf, hu, hx⟩
  · rintro ⟨r, hrt, hf, hu, hx⟩
    exact ⟨r, ⟨hrt, hf, hu⟩, hx⟩

/-- Keeping a row through one DELETE statement, as a proposition. -/
def keepsRow (file_url user_id : String) (r : String × String × α) :
    DelOp α → Prop
  | .wildcard => ¬(r.1 = file_url ∧ r.2.1 = user_id)
  | .batch ids => ¬(r.1 = file_url ∧ r.2.1 = user_id ∧ r.2.2 ∈ ids)

instance (f u : String) (r : String × String × α) (op : DelOp α) :
    Decidable (keepsRow f u r op) := by
  cases op with
  | wildcard => exact inferInstanceAs (Decidable ¬_)
  | batch ids => exact inferInstanceAs (Decidable ¬_)

theorem mem_foldl_applyDelOp (f u : String) :
    ∀ (ops : List (DelOp α)) (t : List (String × String × α))
      (r : String × String × α),
      r ∈ ops.foldl (fun acc op => applyDelOp f u acc op) t ↔
        r ∈ t ∧ ∀ op ∈ ops, keepsRow f u r op := by
  intro ops
  induction ops with
  | nil => intro t r; simp
  | cons op rest ih =>
    intro t r
    rw [List.foldl_cons, ih]
    cases op with
    | wildcard =>
      simp only [applyDelOp, List.mem_filter, decide_eq_true_eq]
      constructor
      · rintro ⟨⟨hrt, hk⟩, hrest⟩
        refine ⟨hrt, ?_⟩
        intro o ho
        rcases List.mem_cons.mp ho with ho | ho
        · subst ho; exact hk
        · exact hrest o ho
      · rintro ⟨hrt, hall⟩
        exact ⟨⟨hrt, hall _ (List.mem_cons_self _ _)⟩,
          fun o ho => hall o (List.mem_cons_of_mem _ ho)⟩
    | batch ids =>
      simp only [applyDelOp, List.mem_filter, decide_eq_true_eq]
      constructor
      · rintro ⟨⟨hrt, hk⟩, hrest⟩
        refine ⟨hrt, ?_⟩
        intro o ho
        rcases List.mem_cons.mp ho with ho | ho
        · subst ho; exact hk
        · exact hrest o ho
      · rintro ⟨hrt, hall⟩
        exact ⟨⟨hrt, hall _ (List.mem_cons_self _ _)⟩,
          fun o ho => hall o (List.mem_cons_of_mem _ ho)⟩

theorem chunked_flatten (n : Nat) (l : List α) : (chunked n l).flatten = l := by
  suffices h : ∀ (k : Nat) (l : List α), l.length ≤ k → (chunked n l).flatten = l from
    h l.length l le_rfl
  intro k
  induction k with
  | zero =>
    intro l hl
    rw [Nat.le_zero, List.length_eq_zero] at hl
    subst hl
    cases n <;> simp [chunked]
  | succ k ih =>
    intro l hl
    match n, l with
    | _, [] => cases n <;> simp [chunked]
    | 0, x :: xs => simp [chunked]
    | n + 1, x :: xs =>
      rw [chunked, List.flatten_cons, ih (((x :: xs).drop (n + 1)))
        (by simp at hl ⊢; omega), List.take_append_drop]

theorem chunked_length_le (n : Nat) (l : List α) :
    ∀ c ∈ chunked (n + 1) l, c.length ≤ n + 1 := by
  suffices h : ∀ (k : Nat) (l : List α), l.length ≤ k →
      ∀ c ∈ chunked (n + 1) l, c.length ≤ n + 1 from h l.length l le_rfl
  intro k
  induction k with
  | zero =>
    intro l hl
    rw [Nat.le_zero, List.length_eq_zero] at hl
    subst hl
    intro c hc
    simp [chunked] at hc
  | succ k ih =>
    intro l hl c hc
    match l with
    | [] => simp [chunked] at hc
    | x :: xs =>
      rw [chunked, List.mem_cons] at hc
      rcases hc with hc | hc
      · subst hc
        simpa using List.length_take_le (n + 1) (x :: xs)
      · exact ih ((x :: xs).drop (n + 1)) (by simp at hl ⊢; omega) c hc

theorem get_file_ids_append_added (t : List (String × String × α)) (f u : String)
    (added : List α) (x : α) :
    x ∈ get_file_ids (t ++ added.map (fun a => (f, u, a))) f u ↔
      x ∈ get_file_ids t f u ∨ x ∈ added := by
  simp only [mem_get_file_ids, List.mem_append, List.mem_map]
  constructor
  · rintro ⟨r, hr | hr, hf, hu, hx⟩
    · exact Or.inl ⟨r, hr, hf, hu, hx⟩
    · obtain ⟨a, ha, hra⟩ := hr
      subst hra
      simp only at hx
      exact Or.inr (hx ▸ ha)
  · rintro (⟨r, hr, hf, hu, hx⟩ | hx)
    · exact ⟨r, Or.inl hr, hf, hu, hx⟩
    · exact ⟨(f, u, x), Or.inr ⟨x, hx, rfl⟩, rfl, rfl, rfl⟩

/-- C4.  `update_file_ids` reconciles the stored set with the authoritative
set `S`: afterwards the stored id set equals `S`; the call returns
`(S \ prior, prior \ S)`; the file row gets `number_of_items = |S|` and a
fresh `last_read_time`; an empty `S` (with something to delete) takes the
single wildcard DELETE; a non-empty `S` issues only batched DELETEs of at
most 500 ids each. -/
theorem update_file_ids_spec {α : Type} [DecidableEq α]
    (t : List (String × String × α)) (files : List FileRow)
    (f u : String) (S : List α) (now : Nat) (hS : S.Nodup) :
    ((get_file_ids (update_file_ids t files f u S now).idsTable f u).toFinset
        = S.toFinset) ∧
    ((update_file_ids t files f u S now).added.toFinset
        = S.toFinset \ (get_file_ids t f u).toFinset) ∧
    ((update_file_ids t files f u S now).removed.toFinset
        = (get_file_ids t f u).toFinset \ S.toFinset) ∧
    (∀ r ∈ (update_file_ids t files f u S now).filesTable,
        r.file_url = f → r.user_id = u →
        r.number_of_items = some S.length ∧ r.last_read_time = some now) ∧
    (S = [] → (update_file_ids t files f u S now).removed ≠ [] →
        (update_file_ids t files f u S now).deleteOps = [DelOp.wildcard]) ∧
    (S ≠ [] → ∀ op ∈ (update_file_ids t files f u S now).deleteOps,
        ∃ b, op = DelOp.batch b ∧ b.length ≤ 500) := by
  set existing := get_file_ids t f u with hex
  set added := S.filter (fun a => decide (a ∉ existing)) with hadd
  set removed := existing.filter (fun a => decide (a ∉ S)) with hrem
  have hR : update_file_ids t files f u S now =
      ⟨added, removed,
        (if removed = [] then ([] : List (DelOp α))
         else if S = [] then [DelOp.wildcard]
         else (chunked 500 removed).map DelOp.batch).foldl
          (fun acc op => applyDelOp f u acc op)
          (t ++ added.map (fun a => (f, u, a))),
        files.map fun r =>
          if r.file_url = f ∧ r.user_id = u then
            { r with last_read_time := some now, number_of_items := some S.length }
          else r,
        if removed = [] then []
        else if S = [] then [DelOp.wildcard]
        else (chunked 500 removed).map DelOp.batch⟩ := rfl
  refine ⟨?_, ?_, ?_, ?_, ?_, ?_⟩
  · -- stored set equals S afterwards
    rw [hR]
    ext x
    simp only [List.mem_toFinset, mem_foldl_applyDelOp f u _ _ _ |>.symm]
    rw [mem_get_file_ids]
    constructor
    · rintro ⟨r, hr, hf, hu, hx⟩
      rw [mem_foldl_applyDelOp] at hr
      obtain ⟨hr1, hkeep⟩ := hr
      have hx1 : x ∈ existing ∨ x ∈ added := by
        rw [← get_file_ids_append_added t f u added x, mem_get_file_ids]
        exact ⟨r, hr1, hf, hu, hx⟩
      by_cases hrm : removed = []
      · -- nothing was deleted: existing ⊆ S
        rcases hx1 with hx1 | hx1
        · by_contra hxS
          have : x ∈ removed := by
            rw [hrem, List.mem_filter]
            exact ⟨hx1, by simpa using hxS⟩
          rw [hrm] at this
          simp at this
        · exact (List.mem_filter.mp hx1).1
      · by_cases hSe : S = []
        · -- wildcard: no keyed row survives
          exfalso
          have := hkeep DelOp.wildcard (by simp [hrm, hSe])
          exact this ⟨hf, hu⟩
        · -- batched: survivors are exactly the non-removed
          have hxrm : x ∉ removed := by
            intro hxr
            obtain ⟨c, hc, hxc⟩ :
                ∃ c ∈ chunked 500 removed, x ∈ c := by
              have : x ∈ (chunked 500 removed).flatten := by
                rw [chunked_flatten]; exact hxr
              simpa [List.mem_flatten] using this
            have := hkeep (DelOp.batch c) (by
              simp only [hrm, hSe, if_false, List.mem_map]
              exact ⟨c, hc, rfl⟩)
            exact this ⟨hf, hu, hx ▸ hxc⟩
          rcases hx1 with hx1 | hx1
          · by_contra hxS
            exact hxrm (by rw [hrem, List.mem_filter]; exact ⟨hx1, by simpa using hxS⟩)
          · exact (List.mem_filter.mp hx1).1
    · intro hxS
      by_cases hxe : x ∈ existing
      · -- the existing row survives every DELETE
        obtain ⟨r, hr, hf, hu, hx⟩ := mem_get_file_ids.mp hxe
        refine ⟨r, ?_, hf, hu, hx⟩
        rw [mem_foldl_applyDelOp]
        refine ⟨List.mem_append_left _ hr, ?_⟩
        intro op hop
        by_cases hrm : removed = []
        · rw [hrm] at hop; simp at hop
        · by_cases hSe : S = []
          · rw [hSe] at hxS; simp at hxS
          · simp only [hrm, hSe, if_false, List.mem_map] at hop
            obtain ⟨c, hc, hoc⟩ := hop
            subst hoc
            rintro ⟨-, -, hxc⟩
            have hxr : r.2.2 ∈ removed := by
              have : r.2.2 ∈ (chunked 500 removed).flatten :=
                List.mem_flatten.mpr ⟨c, hc, hxc⟩
              rwa [chunked_flatten] at this
            rw [hrem, List.mem_filter] at hxr
            rw [hx] at hxr
            exact absurd hxS (by simpa using hxr.2)
      · -- x was inserted as an added row, which no DELETE touches
        refine ⟨(f, u, x), ?_, rfl, rfl, rfl⟩
        rw [mem_foldl_applyDelOp]
        have hxa : x ∈ added := by
          rw [hadd, List.mem_filter]
          exact ⟨hxS, by simpa using hxe⟩
        refine ⟨List.mem_append_right _ (List.mem_map.mpr ⟨x, hxa, rfl⟩), ?_⟩
        intro op hop
        by_cases hrm : removed = []
        · rw [hrm] at hop; simp at hop
        · by_cases hSe : S = []
          · rw [hSe] at hxS; simp at hxS
          · simp only [hrm, hSe, if_false, List.mem_map] at hop
            obtain ⟨c, hc, hoc⟩ := hop
            subst hoc
            rintro ⟨-, -, hxc⟩
            have hxr : x ∈ removed := by
              have : x ∈ (chunked 500 removed).flatten :=
                List.mem_flatten.mpr ⟨c, hc, hxc⟩
              rwa [chunked_flatten] at this
            rw [hrem, List.mem_filter] at hxr
            exact absurd hxS (by simpa using hxr.2)
  · rw [hR]
    ext x
    simp [hadd, Finset.mem_sdiff]
  · rw [hR]
    ext x
    simp [hrem, Finset.mem_sdiff, and_comm]
  · rw [hR]
    intro r hr hf hu
    simp only [List.mem_map] at hr
    obtain ⟨r0, _, hr0⟩ := hr
    by_cases hk : r0.file_url = f ∧ r0.user_id = u
    · rw [if_pos hk] at hr0
      subst hr0
      exact ⟨rfl, rfl⟩
    · rw [if_neg hk] at hr0
      subst hr0
      exact absurd ⟨hf, hu⟩ hk
  · intro hSe hrm
    rw [hR] at hrm ⊢
    simp only at hrm ⊢
    rw [if_neg hrm, if_pos hSe]
  · intro hSe op hop
    rw [hR] at hop
    simp only at hop
    by_cases hrm : removed = []
    · rw [if_pos hrm] at hop; simp at hop
    · rw [if_neg hrm, if_neg hSe, List.mem_map] at hop
      obtain ⟨c, hc, hoc⟩ := hop
      exact ⟨c, hoc.symm, chunked_length_le 499 removed c hc⟩

/-- Closed witness for C4 at a concrete table and id set: prior ids
`{a, b}`, new set `{b, c}`. -/
theorem update_file_ids_spec_witness :
    (["b", "c"] : List String).Nodup ∧
    ((get_file_ids (update_file_ids [("f", "u", "a"), ("f", "u", "b"), ("g", "u", "c")]
        [] "f" "u" ["b", "c"] 7).idsTable "f" "u").toFinset
      = (["b", "c"] : List String).toFinset) := by
  have h := update_file_ids_spec [("f", "u", "a"), ("f", "u", "b"), ("g", "u", "c")]
    [] "f" "u" ["b", "c"] 7 (by decide)
  exact ⟨by decide, h.1⟩

end IdsTable

/-- `get_site_files` (db.py lines 170–174): the `file_url`s of the rows with
this `site_url` and `user_id` that are active.  Note there is no filter on
`schema_map`. -/
def get_site_files (files : List FileRow) (site_url user_id : String) :
    List String :=
  (files.filter fun r =>
    decide (r.site_url = site_url ∧ r.user_id = user_id ∧ r.is_active = true)).map
    fun r => r.file_url

/-- One insertion into a Python dict: replace the value when the key exists,
otherwise append the binding. -/
def dictInsert (m : List (String × String)) (k v : String) :
    List (String × String) :=
  if m.any (fun p => p.1 == k) then
    m.map (fun p => if p.1 == k then (k, v) else p)
  else m ++ [(k, v)]

/-- The dict comprehension of `update_site_files` (db.py line 194):
`{file_url: schema_map for _, schema_map, file_url in current_files}`,
with a later duplicate `file_url` overwriting an earlier one.  Triples are
`(site_url, schema_map_url, file_url)`. -/
def currentFilesDict (current_files : List (String × String × String)) :
    List (String × String) :=
  current_files.foldl (fun m tr => dictInsert m tr.2.2 tr.2.1) []

/-- The `ON target.file_url = source.file_url AND target.user_id =
source.user_id` match test of the MERGE statement. -/
def hasFileKey (files : List FileRow) (file_url user_id : String) : Bool :=
  files.any fun r => r.file_url == file_url && r.user_id == user_id

/-- The row inserted by the MERGE's `WHEN NOT MATCHED` branch, with the
column defaults `is_manual = 0`, `last_read_time` and `number_of_items`
NULL (db.py lines 100–114 and 211–212). -/
def freshFileRow (site_url user_id file_url sm : String) : FileRow :=
  ⟨site_url, user_id, file_url, some sm, none, none, false, true⟩

/-- The MERGE upsert of `update_site_files` (db.py lines 205–213), keyed on
`(file_url, user_id)`: when matched, set `is_active = 1` and refresh
`site_url` and `schema_map`; when not matched, insert a fresh active row. -/
def mergeFile (files : List FileRow) (site_url user_id file_url sm : String) :
    List FileRow :=
  if hasFileKey files file_url user_id then
    files.map fun r =>
      if r.file_url = file_url ∧ r.user_id = user_id then
        { r with is_active := true, site_url := site_url, schema_map := some sm }
      else r
  else
    files ++ [freshFileRow site_url user_id file_url sm]

/-- `update_site_files` (db.py lines 176–225).  Diffs the triples of the
schema map being processed against ALL currently active rows of
`(site_url, user_id)` — the query does not restrict to the map — then
MERGE-upserts each added file and marks each removed file inactive.
Returns `((added, removed), new files table)`.  The per-site semaphore
serializes callers and is invisible to this sequential model. -/
def update_site_files (files : List FileRow) (site_url user_id : String)
    (current_files : List (String × String × String)) :
    (List String × List String) × List FileRow :=
  let existing_files := get_site_files files site_url user_id
  let dict := currentFilesDict current_files
  let current_set := (dict.map fun p => p.1).dedup
  let existing_set := existing_files.dedup
  let added := current_set.filter fun f => decide (f ∉ existing_set)
  let removed := existing_set.filter fun f => decide (f ∉ current_set)
  let files1 := added.foldl
    (fun acc f => mergeFile acc site_url user_id f ((dict.lookup f).getD "")) files
  let files2 :=
    if removed = [] then files1
    else files1.map fun r =>
      if r.site_url = site_url ∧ r.user_id = user_id ∧ r.file_url ∈ removed then
        { r with is_active := false }
      else r
  ((added, removed), files2)

/-- The `process_removed_file` jobs enqueued by `add_schema_map_to_site`
(master.py lines 229–244): one per removed file. -/
def removedFileJobs (site_url user_id : String) (removed : List String) :
    List (String × String × String) :=
  removed.map fun file_url => (user_id, site_url, file_url)

/-- Pointwise effect of the whole MERGE loop on a pre-existing row: rows
keyed by an added `file_url` (for this `user_id`) are reactivated and
repointed, all others are untouched. -/
def touchAdded (site_url user_id : String) (dict : List (String × String))
    (L : List String) (r : FileRow) : FileRow :=
  if r.file_url ∈ L ∧ r.user_id = user_id then
    { r with is_active := true, site_url := site_url,
             schema_map := some ((dict.lookup r.file_url).getD "") }
  else r

theorem touchAdded_file_url (s u : String) (dict : List (String × String))
    (L : List String) (r : FileRow) :
    (touchAdded s u dict L r).file_url = r.file_url := by
  unfold touchAdded
  by_cases h : r.file_url ∈ L ∧ r.user_id = u <;> simp [h]

theorem touchAdded_user_id (s u : String) (dict : List (String × String))
    (L : List String) (r : FileRow) :
    (touchAdded s u dict L r).user_id = r.user_id := by
  unfold touchAdded
  by_cases h : r.file_url ∈ L ∧ r.user_id = u <;> simp [h]

theorem hasFileKey_map_touch (s u : String) (dict : List (String × String))
    (L : List String) (fs : List FileRow)
    (upd : FileRow → FileRow)
    (hfile : ∀ r, (upd r).file_url = r.file_url)
    (huser : ∀ r, (upd r).user_id = r.user_id)
    (g v : String) :
    hasFileKey (fs.map upd) g v = hasFileKey fs g v := by
  unfold hasFileKey
  rw [List.any_map]
  congr 1
  funext r
  simp [Function.comp, hfile r, huser r]

/-- Closed form of the MERGE loop of `update_site_files`: every pre-existing
row is `touchAdded`, and a fresh row is appended for each added file that
had no row at all. -/
theorem foldl_mergeFile_eq (s u : String) (dict : List (String × String)) :
    ∀ (L : List String) (fs : List FileRow), L.Nodup →
      L.foldl (fun acc f => mergeFile acc s u f ((dict.lookup f).getD "")) fs =
        fs.map (touchAdded s u dict L) ++
          (L.filter fun g => !hasFileKey fs g u).map
            (fun g => freshFileRow s u g ((dict.lookup g).getD "")) := by
  intro L
  induction L with
  | nil =>
    intro fs _
    have h1 : fs.map (touchAdded s u dict []) = fs.map id := by
      apply List.map_congr_left
      intro r _
      simp [touchAdded]
    simp [h1]
  | cons g L' ih =>
    intro fs hnd
    obtain ⟨hgL, hnd'⟩ := List.nodup_cons.mp hnd
    rw [List.foldl_cons, ih _ hnd']
    by_cases hk : hasFileKey fs g u
    · -- MERGE matched: the keyed rows are updated in place
      rw [mergeFile, if_pos hk, List.map_map]
      have hmap : fs.map (touchAdded s u dict L' ∘ fun r =>
          if r.file_url = g ∧ r.user_id = u then
            { r with is_active := true, site_url := s,
                     schema_map := some ((dict.lookup g).getD "") }
          else r) = fs.map (touchAdded s u dict (g :: L')) := by
        apply List.map_congr_left
        intro r _
        by_cases hkey : r.file_url = g ∧ r.user_id = u
        · simp only [Function.comp, if_pos hkey]
          unfold touchAdded
          rw [if_neg (by simp; intro hmem; exact absurd hmem (by simp [hkey.1 ▸ hgL]))]
          rw [if_pos (by simp [hkey.1, hkey.2])]
          simp [hkey.1]
        · simp only [Function.comp, if_neg hkey]
          unfold touchAdded
          by_cases hmem : r.file_url ∈ L' ∧ r.user_id = u
          · rw [if_pos hmem, if_pos ⟨List.mem_cons_of_mem _ hmem.1, hmem.2⟩]
          · rw [if_neg hmem, if_neg (by
              rintro ⟨hin, huser⟩
              rcases List.mem_cons.mp hin with heq | hin
              · exact hkey ⟨heq, huser⟩
              · exact hmem ⟨hin, huser⟩)]
      rw [hmap]
      have hfil : (L'.filter fun g' =>
          !hasFileKey (fs.map fun r =>
            if r.file_url = g ∧ r.user_id = u then
              { r with is_active := true, site_url := s,
                       schema_map := some ((dict.lookup g).getD "") }
            else r) g' u) =
          (g :: L').filter fun g' => !hasFileKey fs g' u := by
        rw [List.filter_cons_of_neg (by simp [hk])]
        apply List.filter_congr
        intro g' _
        rw [hasFileKey_map_touch s u dict L' fs _
          (fun r => by by_cases h : r.file_url = g ∧ r.user_id = u <;> simp [h])
          (fun r => by by_cases h : r.file_url = g ∧ r.user_id = u <;> simp [h])]
      rw [hfil]
    · -- MERGE did not match: a fresh row was appended
      rw [mergeFile, if_neg hk, List.map_append]
      have hfresh : ([freshFileRow s u g ((dict.lookup g).getD "")].map
          (touchAdded s u dict L')) = [freshFileRow s u g ((dict.lookup g).getD "")] := by
        simp only [List.map_cons, List.map_nil]
        unfold touchAdded
        rw [if_neg (by simp [freshFileRow]; intro hmem; exact absurd hmem (by simp [hgL]))]
      rw [hfresh]
      have hmap : fs.map (touchAdded s u dict L') =
          fs.map (touchAdded s u dict (g :: L')) := by
        apply List.map_congr_left
        intro r hr
        have hnkey : ¬(r.file_url = g ∧ r.user_id = u) := by
          rintro ⟨hfu, huu⟩
          unfold hasFileKey at hk
          exact hk (List.any_eq_true.mpr ⟨r, hr, by simp [hfu, huu]⟩)
        unfold touchAdded
        by_cases hmem : r.file_url ∈ L' ∧ r.user_id = u
        · rw [if_pos hmem, if_pos ⟨List.mem_cons_of_mem _ hmem.1, hmem.2⟩]
        · rw [if_neg hmem, if_neg (by
            rintro ⟨hin, huser⟩
            rcases List.mem_cons.mp hin with heq | hin
            · exact hnkey ⟨heq, huser⟩
            · exact hmem ⟨hin, huser⟩)]
      rw [hmap]
      have hfil : (L'.filter fun g' =>
          !hasFileKey (fs ++ [freshFileRow s u g ((dict.lookup g).getD "")]) g' u) =
          L'.filter fun g' => !hasFileKey fs g' u := by
        apply List.filter_congr
        intro g' hg'
        have hne : g' ≠ g := fun h => hgL (h ▸ hg')
        unfold hasFileKey
        rw [List.any_append]
        simp [freshFileRow, hne.symm]
      rw [hfil, List.filter_cons_of_pos (by simp [hk]), List.map_cons,
        List.append_assoc, List.singleton_append]

theorem mem_get_site_files {fs : List FileRow} {s u x : String} :
    x ∈ get_site_files fs s u ↔
      ∃ r ∈ fs, r.site_url = s ∧ r.user_id = u ∧ r.is_active = true ∧
        r.file_url = x := by
  simp only [get_site_files, List.mem_map, List.mem_filter, decide_eq_true_eq]
  constructor
  · rintro ⟨r, ⟨hrt, hs, hu, ha⟩, hx⟩
    exact ⟨r, hrt, hs, hu, ha, hx⟩
  · rintro ⟨r, hrt, hs, hu, ha, hx⟩
    exact ⟨r, ⟨hrt, hs, hu, ha⟩, hx⟩

/-- After `update_site_files`, the active files of `(site_url, user_id)`
are exactly the file keys of the processed map's dict. -/
theorem update_site_files_active_char
    (fs : List FileRow) (s u : String) (T : List (String × String × String))
    (x : String) :
    x ∈ get_site_files (update_site_files fs s u T).2 s u ↔
      x ∈ (currentFilesDict T).map (fun p => p.1) := by
  set dict := currentFilesDict T with hdict
  set cs := (dict.map fun p => p.1).dedup with hcs
  set es := (get_site_files fs s u).dedup with hes
  set added := cs.filter (fun f => decide (f ∉ es)) with haddedDef
  set removed := es.filter (fun f => decide (f ∉ cs)) with hremDef
  set deact := (fun r : FileRow =>
    if r.site_url = s ∧ r.user_id = u ∧ r.file_url ∈ removed then
      { r with is_active := false } else r) with hdeact
  set files1 := added.foldl
    (fun acc f => mergeFile acc s u f ((dict.lookup f).getD "")) fs with hf1
  have hnodup : added.Nodup := (List.nodup_dedup _).filter _
  have hdeact_eq : ∀ r : FileRow, deact r =
      if r.site_url = s ∧ r.user_id = u ∧ r.file_url ∈ removed then
        { r with is_active := false } else r := fun r => rfl
  have hfs2 : (update_site_files fs s u T).2 = files1.map deact := by
    show (if removed = [] then files1 else files1.map _) = _
    by_cases hrm : removed = []
    · rw [if_pos hrm]
      have hid : ∀ r ∈ files1, deact r = id r := by
        intro r _
        rw [hdeact_eq]
        rw [if_neg (by rw [hrm]; rintro ⟨-, -, hin⟩; simp at hin)]
        rfl
      rw [List.map_congr_left hid, List.map_id]
    · rw [if_neg hrm]
  have hclosed : files1 =
      fs.map (touchAdded s u dict added) ++
        (added.filter fun g => !hasFileKey fs g u).map
          (fun g => freshFileRow s u g ((dict.lookup g).getD "")) :=
    foldl_mergeFile_eq s u dict added fs hnodup
  have hdsite : ∀ r, (deact r).site_url = r.site_url := by
    intro r
    rw [hdeact_eq]
    by_cases h : r.site_url = s ∧ r.user_id = u ∧ r.file_url ∈ removed
    · rw [if_pos h]
    · rw [if_neg h]
  have hduser : ∀ r, (deact r).user_id = r.user_id := by
    intro r
    rw [hdeact_eq]
    by_cases h : r.site_url = s ∧ r.user_id = u ∧ r.file_url ∈ removed
    · rw [if_pos h]
    · rw [if_neg h]
  have hdfile : ∀ r, (deact r).file_url = r.file_url := by
    intro r
    rw [hdeact_eq]
    by_cases h : r.site_url = s ∧ r.user_id = u ∧ r.file_url ∈ removed
    · rw [if_pos h]
    · rw [if_neg h]
  have hdact : ∀ r, (deact r).is_active = true →
      r.is_active = true ∧ ¬(r.site_url = s ∧ r.user_id = u ∧ r.file_url ∈ removed) := by
    intro r h
    rw [hdeact_eq] at h
    by_cases hc : r.site_url = s ∧ r.user_id = u ∧ r.file_url ∈ removed
    · rw [if_pos hc] at h
      simp at h
    · rw [if_neg hc] at h
      exact ⟨h, hc⟩
  have hmem_cs : ∀ y : String, y ∈ cs ↔ y ∈ dict.map (fun p => p.1) :=
    fun y => List.mem_dedup
  have hmem_es : ∀ y : String, y ∈ es ↔ y ∈ get_site_files fs s u :=
    fun y => List.mem_dedup
  constructor
  · -- an active row after the update is a current file
    intro hx
    obtain ⟨r, hr, hsite, huser, hact, hfile⟩ := mem_get_site_files.mp hx
    rw [hfs2, List.mem_map] at hr
    obtain ⟨r1, hr1, hrd⟩ := hr
    subst hrd
    obtain ⟨hact1, hnr⟩ := hdact r1 hact
    rw [hdsite] at hsite
    rw [hduser] at huser
    rw [hdfile] at hfile
    have hnrem : x ∉ removed := by
      intro hinr
      exact hnr ⟨hsite, huser, hfile ▸ hinr⟩
    rw [← hmem_cs]
    rw [hclosed, List.mem_append] at hr1
    rcases hr1 with hr1 | hr1
    · rw [List.mem_map] at hr1
      obtain ⟨r0, hr0, hr0t⟩ := hr1
      by_cases htc : r0.file_url ∈ added ∧ r0.user_id = u
      · have hfeq : r1.file_url = r0.file_url := by
          rw [← hr0t, touchAdded_file_url]
        have hxadd : x ∈ added := by
          rw [← hfile, hfeq]
          exact htc.1
        exact (List.mem_filter.mp hxadd).1
      · have hr1r0 : r1 = r0 := by
          rw [← hr0t]
          unfold touchAdded
          rw [if_neg htc]
        subst hr1r0
        have hxes : x ∈ es := by
          rw [hmem_es, mem_get_site_files]
          exact ⟨r1, hr0, hsite, huser, hact1, hfile⟩
        by_contra hxcs
        exact hnrem (List.mem_filter.mpr ⟨hxes, by simpa using hxcs⟩)
    · rw [List.mem_map] at hr1
      obtain ⟨g, hg, hgf⟩ := hr1
      have hfeq : r1.file_url = g := by
        rw [← hgf]
        rfl
      have hxadd : x ∈ added := by
        rw [← hfile, hfeq]
        exact (List.mem_filter.mp hg).1
      exact (List.mem_filter.mp hxadd).1
  · -- every current file is active after the update
    intro hx
    have hxcs : x ∈ cs := (hmem_cs x).mpr hx
    have hnrem : x ∉ removed := by
      intro hinr
      have h2 := (List.mem_filter.mp hinr).2
      exact absurd hxcs (by simpa using h2)
    rw [hfs2]
    by_cases hxes : x ∈ es
    · -- an already-active row survives untouched
      have hxadd : x ∉ added := by
        intro hinadd
        have h2 := (List.mem_filter.mp hinadd).2
        exact absurd hxes (by simpa using h2)
      obtain ⟨r0, hr0, hsite, huser, hact, hfile⟩ :=
        mem_get_site_files.mp ((hmem_es x).mp hxes)
      have hc1 : ¬(r0.file_url ∈ added ∧ r0.user_id = u) := by
        rintro ⟨hin, -⟩
        exact hxadd (hfile ▸ hin)
      have htouch : touchAdded s u dict added r0 = r0 := by
        unfold touchAdded
        rw [if_neg hc1]
      have hc2 : ¬(r0.site_url = s ∧ r0.user_id = u ∧ r0.file_url ∈ removed) := by
        rintro ⟨-, -, hin⟩
        exact hnrem (hfile ▸ hin)
      have hdr0 : deact r0 = r0 := by
        rw [hdeact_eq, if_neg hc2]
      rw [mem_get_site_files]
      refine ⟨r0, ?_, hsite, huser, hact, hfile⟩
      rw [List.mem_map]
      refine ⟨r0, ?_, hdr0⟩
      rw [hclosed, List.mem_append]
      exact Or.inl (List.mem_map.mpr ⟨r0, hr0, htouch⟩)
    · have hxadd : x ∈ added := List.mem_filter.mpr ⟨hxcs, by simpa using hxes⟩
      by_cases hk : hasFileKey fs x u
      · -- tombstoned or repointed row gets reactivated in place
        obtain ⟨r0, hr0, hkey⟩ := List.any_eq_true.mp hk
        rw [Bool.and_eq_true, beq_iff_eq, beq_iff_eq] at hkey
        have hr1 : touchAdded s u dict added r0 =
            { r0 with is_active := true, site_url := s,
                      schema_map := some ((dict.lookup r0.file_url).getD "") } := by
          unfold touchAdded
          rw [if_pos ⟨hkey.1 ▸ hxadd, hkey.2⟩]
        have hc2 : ¬((touchAdded s u dict added r0).site_url = s ∧
            (touchAdded s u dict added r0).user_id = u ∧
            (touchAdded s u dict added r0).file_url ∈ removed) := by
          rintro ⟨-, -, hin⟩
          rw [hr1] at hin
          exact hnrem (hkey.1 ▸ hin)
        have hdr1 : deact (touchAdded s u dict added r0) =
            touchAdded s u dict added r0 := by
          rw [hdeact_eq, if_neg hc2]
        rw [mem_get_site_files]
        refine ⟨touchAdded s u dict added r0, ?_, by rw [hr1],
          (by rw [hr1]; exact hkey.2), by rw [hr1], (by rw [hr1]; exact hkey.1)⟩
        rw [List.mem_map]
        refine ⟨touchAdded s u dict added r0, ?_, hdr1⟩
        rw [hclosed, List.mem_append]
        exact Or.inl (List.mem_map.mpr ⟨r0, hr0, rfl⟩)
      · -- no row at all: a fresh active row was inserted
        have hc2 : ¬((freshFileRow s u x ((dict.lookup x).getD "")).site_url = s ∧
            (freshFileRow s u x ((dict.lookup x).getD "")).user_id = u ∧
            (freshFileRow s u x ((dict.lookup x).getD "")).file_url ∈ removed) := by
          rintro ⟨-, -, hin⟩
          exact hnrem hin
        have hdr1 : deact (freshFileRow s u x ((dict.lookup x).getD "")) =
            freshFileRow s u x ((dict.lookup x).getD "") := by
          rw [hdeact_eq, if_neg hc2]
        rw [mem_get_site_files]
        refine ⟨freshFileRow s u x ((dict.lookup x).getD ""), ?_, rfl, rfl, rfl, rfl⟩
        rw [List.mem_map]
        refine ⟨freshFileRow s u x ((dict.lookup x).getD ""), ?_, hdr1⟩
        rw [hclosed, List.mem_append]
        refine Or.inr (List.mem_map.mpr ⟨x, ?_, rfl⟩)
        exact List.mem_filter.mpr ⟨hxadd, by simp [hk]⟩

/-- C7.  Discovery is convergent: running `update_site_files` a second time
with the same triples returns empty `added` and `removed` lists and leaves
the files table exactly as the first run left it. -/
theorem update_site_files_convergent (fs : List FileRow) (s u : String)
    (T : List (String × String × String)) :
    (update_site_files (update_site_files fs s u T).2 s u T).1 = ([], []) ∧
    (update_site_files (update_site_files fs s u T).2 s u T).2 =
      (update_site_files fs s u T).2 := by
  set fs2 := (update_site_files fs s u T).2 with hfs2
  set dict := currentFilesDict T with hdict
  set cs := (dict.map fun p => p.1).dedup with hcs
  have hchar : ∀ y, y ∈ (get_site_files fs2 s u).dedup ↔ y ∈ cs := by
    intro y
    rw [List.mem_dedup, hcs, List.mem_dedup]
    exact update_site_files_active_char fs s u T y
  have hadded : cs.filter (fun f => decide (f ∉ (get_site_files fs2 s u).dedup)) = [] := by
    rw [List.filter_eq_nil_iff]
    intro y hy
    simp only [decide_eq_true_eq, Decidable.not_not]
    exact (hchar y).mpr hy
  have hremoved :
      (get_site_files fs2 s u).dedup.filter (fun f => decide (f ∉ cs)) = [] := by
    rw [List.filter_eq_nil_iff]
    intro y hy
    simp only [decide_eq_true_eq, Decidable.not_not]
    exact (hchar y).mp hy
  have hres : update_site_files fs2 s u T =
      ((cs.filter (fun f => decide (f ∉ (get_site_files fs2 s u).dedup)),
        (get_site_files fs2 s u).dedup.filter (fun f => decide (f ∉ cs))),
       _) := rfl
  constructor
  · rw [hres, hadded, hremoved]
  · show (if (get_site_files fs2 s u).dedup.filter (fun f => decide (f ∉ cs)) = []
        then (cs.filter (fun f => decide (f ∉ (get_site_files fs2 s u).dedup))).foldl
          (fun acc f => mergeFile acc s u f ((dict.lookup f).getD "")) fs2
        else _) = fs2
    rw [hremoved, if_pos rfl, hadded, List.foldl_nil]

theorem lookup_some_mem_keys (m : List (String × String)) (k v : String)
    (h : m.lookup k = some v) : k ∈ m.map (fun p => p.1) := by
  induction m with
  | nil => simp [List.lookup] at h
  | cons p m ih =>
    by_cases hk : k = p.1
    · simp [hk]
    · have hk2 : (k == p.1) = false := by simpa using hk
      rw [List.lookup, hk2] at h
      exact List.mem_cons_of_mem _ (ih h)

/-- C8.  Soft-delete reactivation: when every row keyed `(f, u)` is
tombstoned (`is_active = false`) and a later discovery's triples map `f` to
schema map `sm`, after `update_site_files` every row keyed `(f, u)` is
active with `site_url` and `schema_map` taken from the new discovery — and
such a row exists. -/
theorem tombstone_reactivation
    (fs : List FileRow) (s u : String) (T : List (String × String × String))
    (f sm : String) (r0 : FileRow)
    (hr0 : r0 ∈ fs) (hr0f : r0.file_url = f) (hr0u : r0.user_id = u)
    (htomb : ∀ r ∈ fs, r.file_url = f → r.user_id = u → r.is_active = false)
    (hlk : (currentFilesDict T).lookup f = some sm) :
    (∀ r ∈ (update_site_files fs s u T).2, r.file_url = f → r.user_id = u →
        r.is_active = true ∧ r.site_url = s ∧ r.schema_map = some sm) ∧
    (∃ r ∈ (update_site_files fs s u T).2, r.file_url = f ∧ r.user_id = u) := by
  set dict := currentFilesDict T with hdict
  set cs := (dict.map fun p => p.1).dedup with hcs
  set es := (get_site_files fs s u).dedup with hes
  set added := cs.filter (fun g => decide (g ∉ es)) with haddedDef
  set removed := es.filter (fun g => decide (g ∉ cs)) with hremDef
  set deact := (fun r : FileRow =>
    if r.site_url = s ∧ r.user_id = u ∧ r.file_url ∈ removed then
      { r with is_active := false } else r) with hdeact
  set files1 := added.foldl
    (fun acc g => mergeFile acc s u g ((dict.lookup g).getD "")) fs with hf1
  have hnodup : added.Nodup := (List.nodup_dedup _).filter _
  have hdeact_eq : ∀ r : FileRow, deact r =
      if r.site_url = s ∧ r.user_id = u ∧ r.file_url ∈ removed then
        { r with is_active := false } else r := fun r => rfl
  have hfs2 : (update_site_files fs s u T).2 = files1.map deact := by
    show (if removed = [] then files1 else files1.map _) = _
    by_cases hrm : removed = []
    · rw [if_pos hrm]
      have hid : ∀ r ∈ files1, deact r = id r := by
        intro r _
        rw [hdeact_eq]
        rw [if_neg (by rw [hrm]; rintro ⟨-, -, hin⟩; simp at hin)]
        rfl
      rw [List.map_congr_left hid, List.map_id]
    · rw [if_neg hrm]
  have hclosed : files1 =
      fs.map (touchAdded s u dict added) ++
        (added.filter fun g => !hasFileKey fs g u).map
          (fun g => freshFileRow s u g ((dict.lookup g).getD "")) :=
    foldl_mergeFile_eq s u dict added fs hnodup
  have hdfile : ∀ r, (deact r).file_url = r.file_url := by
    intro r
    rw [hdeact_eq]
    by_cases h : r.site_url = s ∧ r.user_id = u ∧ r.file_url ∈ removed
    · rw [if_pos h]
    · rw [if_neg h]
  have hduser : ∀ r, (deact r).user_id = r.user_id := by
    intro r
    rw [hdeact_eq]
    by_cases h : r.site_url = s ∧ r.user_id = u ∧ r.file_url ∈ removed
    · rw [if_pos h]
    · rw [if_neg h]
  have hfcs : f ∈ cs := List.mem_dedup.mpr (lookup_some_mem_keys dict f sm hlk)
  have hfes : f ∉ es := by
    intro hin
    obtain ⟨r, hr, hsite, huser, hact, hfile⟩ :=
      mem_get_site_files.mp (List.mem_dedup.mp hin)
    rw [htomb r hr hfile huser] at hact
    simp at hact
  have hfadd : f ∈ added := List.mem_filter.mpr ⟨hfcs, by simpa using hfes⟩
  have hfrem : f ∉ removed := by
    intro hin
    have h2 := (List.mem_filter.mp hin).2
    exact absurd hfcs (by simpa using h2)
  constructor
  · intro r hr hrf hru
    rw [hfs2, List.mem_map] at hr
    obtain ⟨r1, hr1, hrd⟩ := hr
    have hr1f : r1.file_url = f := by rw [← hrf, ← hrd, hdfile]
    have hr1u : r1.user_id = u := by rw [← hru, ← hrd, hduser]
    have hdr1 : deact r1 = r1 := by
      rw [hdeact_eq]
      rw [if_neg (by rintro ⟨-, -, hin⟩; exact hfrem (hr1f ▸ hin))]
    rw [← hrd, hdr1]
    rw [hclosed, List.mem_append] at hr1
    rcases hr1 with hr1 | hr1
    · rw [List.mem_map] at hr1
      obtain ⟨r2, hr2, hr2t⟩ := hr1
      have hr2f : r2.file_url = f := by rw [← hr1f, ← hr2t, touchAdded_file_url]
      have hr2u : r2.user_id = u := by rw [← hr1u, ← hr2t, touchAdded_user_id]
      have ht : touchAdded s u dict added r2 =
          { r2 with is_active := true, site_url := s,
                    schema_map := some ((dict.lookup r2.file_url).getD "") } := by
        unfold touchAdded
        rw [if_pos ⟨hr2f ▸ hfadd, hr2u⟩]
      rw [← hr2t, ht]
      refine ⟨rfl, rfl, ?_⟩
      simp only [hr2f, hlk]
      rfl
    · rw [List.mem_map] at hr1
      obtain ⟨g, hg, hgf⟩ := hr1
      have hgeq : g = f := by rw [← hr1f, ← hgf]; rfl
      rw [← hgf]
      subst hgeq
      refine ⟨rfl, rfl, ?_⟩
      simp only [freshFileRow, hlk]
      rfl
  · refine ⟨deact (touchAdded s u dict added r0), ?_, ?_, ?_⟩
    · rw [hfs2, List.mem_map]
      refine ⟨touchAdded s u dict added r0, ?_, rfl⟩
      rw [hclosed, List.mem_append]
      exact Or.inl (List.mem_map.mpr ⟨r0, hr0, rfl⟩)
    · rw [hdfile, touchAdded_file_url, hr0f]
    · rw [hduser, touchAdded_user_id, hr0u]

/-- Closed witness for C8: the tombstoned row for `f1` is reactivated and
repointed by a discovery containing `f1`. -/
theorem tombstone_reactivation_witness :
    (FileRow.mk "s.example" "u1" "f1" (some "newmap") none none false true).is_active
        = true ∧
    (FileRow.mk "s.example" "u1" "f1" (some "newmap") none none false true).site_url
        = "s.example" ∧
    (FileRow.mk "s.example" "u1" "f1" (some "newmap") none none false true).schema_map
        = some "newmap" :=
  (tombstone_reactivation
    [⟨"old.example", "u1", "f1", some "oldmap", none, none, false, false⟩]
    "s.example" "u1" [("s.example", "newmap", "f1")] "f1" "newmap"
    ⟨"old.example", "u1", "f1", some "oldmap", none, none, false, false⟩
    (by decide) (by decide) (by decide) (by decide) (by decide)).1
    (FileRow.mk "s.example" "u1" "f1" (some "newmap") none none false true)
    (by decide) (by decide) (by decide)

/-- C2 shows the code diverging from it: `update_site_files` diffs against
all active rows of `(site_url, user_id)` with no schema-map scoping, so
processing map A's triples tombstones the active file of map B for the same
site and returns it in `removed`, whereupon master.py enqueues a
`process_removed_file` job for it. -/
theorem site_diff_not_scoped_to_map :
    (update_site_files
        [⟨"site.example", "u1", "fB", some "mapB", none, none, false, true⟩]
        "site.example" "u1" [("site.example", "mapA", "fA")]).1.2 = ["fB"] ∧
    (∀ r ∈ (update_site_files
        [⟨"site.example", "u1", "fB", some "mapB", none, none, false, true⟩]
        "site.example" "u1" [("site.example", "mapA", "fA")]).2,
      r.file_url = "fB" → r.is_active = false) ∧
    removedFileJobs "site.example" "u1"
      (update_site_files
        [⟨"site.example", "u1", "fB", some "mapB", none, none, false, true⟩]
        "site.example" "u1" [("site.example", "mapA", "fA")]).1.2 =
      [("u1", "site.example", "fB")] := by
  refine ⟨by decide, ?_, by decide⟩
  decide

/-- `log_processing_error` (db.py lines 141–148): append an error row; the
model keeps `(file_url, user_id, error_type)`. -/
def log_processing_error (errors : List (String × String × String))
    (file_url user_id error_type : String) : List (String × String × String) :=
  errors ++ [(file_url, user_id, error_type)]

/-- `get_file_errors` (db.py lines 150–159): the error rows of a file. -/
def get_file_errors (errors : List (String × String × String))
    (file_url user_id : String) : List (String × String × String) :=
  errors.filter fun e => decide (e.1 = file_url ∧ e.2.1 = user_id)

/-- `clear_file_errors` (db.py lines 161–168):
`DELETE FROM processing_errors WHERE file_url = %s AND user_id = %s`. -/
def clear_file_errors (errors : List (String × String × String))
    (file_url user_id : String) : List (String × String × String) :=
  errors.filter fun e => decide ¬(e.1 = file_url ∧ e.2.1 = user_id)

/-- Modelled from the spec: `MAX_BATCH_DELETE_IDS`, imported by worker.py
from the vector_db module but not present in the source tree; the spec's
Indexer section documents the backend batch maximum as 100 documents per
request. -/
def MAX_BATCH_DELETE_IDS : Nat := 100

/-- Modelled from the spec: `update_site_last_processed` lives in the
scheduler module, which is not in the source tree; per the spec it sets
`sites.last_processed = now` for the site. -/
def update_site_last_processed (sites : List (String × Option Nat))
    (site : String) (now : Nat) : List (String × Option Nat) :=
  sites.map fun p => if p.1 = site then (p.1, some now) else p

/-- A queue job body as read by `process_job` (worker.py): `user_id` is
`job.get('user_id')`, absent fields are `none`. -/
structure Job where
  type : String
  user_id : Option String
  site : String
  file_url : String
  content_type : Option String
  deriving DecidableEq, Repr

/-- Python's `if not user_id:` — true when `user_id` is absent or empty. -/
def userIdFalsy (job : Job) : Bool :=
  match job.user_id with
  | none => true
  | some s => s == ""

/-- The relational state a worker job touches: the `files`, `ids` and
`processing_errors` tables plus `sites.last_processed`. -/
structure WState where
  files : List FileRow
  ids : List (String × String × JVal)
  errors : List (String × String × String)
  sites : List (String × Option Nat)
  deriving DecidableEq, Repr

/-- Observable side effects of one `process_job` run: the error types passed
to `log_processing_error`, the items staged for `vector_db_batch_add`, and
the id batches passed to `vector_db_batch_delete`. -/
structure WTrace where
  loggedErrors : List String
  vecAddItems : List (JVal × String × JVal)
  vecDeleteBatches : List (List JVal)
  deriving DecidableEq, Repr

/-- The BreadcrumbList re-check inside `process_job` (worker.py lines
300–305): `obj_type = obj.get('@type', '')` then skip when it equals
`'BreadcrumbList'` or is a list containing it.  (Unreachable for extraction
output, since the skip filter already removed such objects.) -/
def breadcrumbSkip (obj : JVal) : Bool :=
  match (jget obj "@type").getD (.jstr "") with
  | .jstr s => s == "BreadcrumbList"
  | .jarr l => l.contains (.jstr "BreadcrumbList")
  | _ => false

/-- The `items_to_add` loop of `process_job` (worker.py lines 290–310): for
each added id with per-user reference count 1, find its extracted object and
stage `(id, site, obj)` unless the BreadcrumbList re-check fires. -/
def stageAdds (objects : List JVal) (idTable : List (String × String × JVal))
    (user_id site : String) : List JVal → List (JVal × String × JVal)
  | [] => []
  | idv :: rest =>
    if count_id_references idTable idv user_id = 1 then
      match objects.find? (fun o => jget o "@id" == some idv) with
      | some obj =>
        if breadcrumbSkip obj then stageAdds objects idTable user_id site rest
        else (idv, site, obj) :: stageAdds objects idTable user_id site rest
      | none => stageAdds objects idTable user_id site rest
    else stageAdds objects idTable user_id site rest

/-- The `ids_to_delete` loop of `process_job` (worker.py lines 339–345):
each removed id whose per-user reference count dropped to 0. -/
def stageDeletes (idTable : List (String × String × JVal)) (user_id : String)
    (removed : List JVal) : List JVal :=
  removed.filter fun idv => decide (count_id_references idTable idv user_id = 0)

/-- `process_job` (worker.py lines 236–394).  Returns the Python return
value (`none` models the implicit `None` when the job type matches no
handler), the new state, and the trace of side effects.

Notes matching the source:
  * `extract_schema_data_from_url` never raises (it catches every
    exception internally and returns `([], [])`), so the
    `except`-handler in `process_job` that would log `extraction_failed`
    and return `False` is unreachable and has no counterpart here;
  * `vector_db_batch_add` and `vector_db_batch_delete` likewise catch all
    of their exceptions internally (vector_db.py lines 198–235), so the
    `vector_db_add_failed` handler is unreachable too and the vector calls
    always succeed. -/
def processJob (st : WState) (job : Job) (fetch : FetchResult) (now : Nat) :
    Option Bool × WState × WTrace :=
  if userIdFalsy job then
    (some false, st, ⟨[], [], []⟩)
  else
    let u := job.user_id.getD ""
    if job.type = "process_file" then
      if ¬ st.files.any (fun r => r.file_url == job.file_url && r.user_id == u) then
        (some true, st, ⟨[], [], []⟩)
      else
        let eo := extract_schema_data_from_url fetch
        let st1 : WState :=
          if eo.1.length = 0 then
            { st with errors := log_processing_error st.errors job.file_url u "no_ids_found" }
          else st
        let errLog : List String := if eo.1.length = 0 then ["no_ids_found"] else []
        let upd := update_file_ids st1.ids st1.files job.file_url u eo.1.dedup now
        let st2 : WState := { st1 with ids := upd.idsTable, files := upd.filesTable }
        let itemsToAdd := stageAdds eo.2 st2.ids u job.site upd.added
        let idsToDelete := stageDeletes st2.ids u upd.removed
        let st3 : WState :=
          { st2 with sites := update_site_last_processed st2.sites job.site now }
        let st4 : WState :=
          { st3 with errors := clear_file_errors st3.errors job.file_url u }
        (some true, st4,
          ⟨errLog, itemsToAdd, if idsToDelete = [] then [] else [idsToDelete]⟩)
    else if job.type = "process_removed_file" then
      let priorIds := get_file_ids st.ids job.file_url u
      let upd := update_file_ids st.ids st.files job.file_url u [] now
      let st2 : WState := { st with ids := upd.idsTable, files := upd.filesTable }
      let absentIds := priorIds.filter
        (fun idv => decide (count_id_references st2.ids idv u = 0))
      let batches := chunked MAX_BATCH_DELETE_IDS absentIds
      let st3 : WState :=
        { st2 with
          files := st2.files.filter
            (fun r => decide ¬(r.file_url = job.file_url ∧ r.user_id = u)) }
      (some true, st3, ⟨[], [], batches⟩)
    else
      (none, st, ⟨[], [], []⟩)

/-- The ack decision of `worker_loop` (worker.py rows 515–524): a truthy
`process_job` result deletes the message (ack); `False` and the implicit
`None` both return it to the queue (nack). -/
def workerAck : Option Bool → Bool
  | some true => true
  | some false => false
  | none => false

/-- C1 evaluated at its failing input: for a `process_file` job whose
payload fetch fails (here a `requests.RequestException`, covering network
errors and non-2xx statuses; a JSON parse error behaves identically),
`extract_schema_data_from_url` swallows the exception and returns
`([], [])`, so `process_job` logs `no_ids_found` — never
`extraction_failed` — wipes the file's stored ids via the wildcard delete,
clears the error rows, and returns `True`, which the worker loop acks. -/
theorem fetch_failure_acked_not_failed :
    (processJob
        ⟨[⟨"site.example", "u1", "fileC1", some "m", none, none, false, true⟩],
         [("fileC1", "u1", .jstr "a")], [], [("site.example", none)]⟩
        ⟨"process_file", some "u1", "site.example", "fileC1", none⟩
        .reqError 5).1 = some true ∧
    workerAck (processJob
        ⟨[⟨"site.example", "u1", "fileC1", some "m", none, none, false, true⟩],
         [("fileC1", "u1", .jstr "a")], [], [("site.example", none)]⟩
        ⟨"process_file", some "u1", "site.example", "fileC1", none⟩
        .reqError 5).1 = true ∧
    (processJob
        ⟨[⟨"site.example", "u1", "fileC1", some "m", none, none, false, true⟩],
         [("fileC1", "u1", .jstr "a")], [], [("site.example", none)]⟩
        ⟨"process_file", some "u1", "site.example", "fileC1", none⟩
        .reqError 5).2.2.loggedErrors = ["no_ids_found"] ∧
    (processJob
        ⟨[⟨"site.example", "u1", "fileC1", some "m", none, none, false, true⟩],
         [("fileC1", "u1", .jstr "a")], [], [("site.example", none)]⟩
        ⟨"process_file", some "u1", "site.example", "fileC1", none⟩
        .reqError 5).2.1.ids = [] ∧
    get_file_errors (processJob
        ⟨[⟨"site.example", "u1", "fileC1", some "m", none, none, false, true⟩],
         [("fileC1", "u1", .jstr "a")], [], [("site.example", none)]⟩
        ⟨"process_file", some "u1", "site.example", "fileC1", none⟩
        .reqError 5).2.1.errors "fileC1" "u1" = [] := by
  decide

/-- C3's counterexample: at a job with an unknown type, and at a job missing
`user_id`, the worker does NOT ack — `process_job` falls through (returning
`None`) resp. returns `False`, and `worker_loop` returns the message to the
queue. -/
theorem unknown_type_or_missing_user_not_acked :
    workerAck (processJob ⟨[], [], [], []⟩
        ⟨"bogus_type", some "u1", "s.example", "f1", none⟩ .reqError 0).1 = false ∧
    workerAck (processJob ⟨[], [], [], []⟩
        ⟨"process_file", none, "s.example", "f1", none⟩ .reqError 0).1 = false := by
  decide

/-- C3 amended: for every job whose body has an unknown type or whose
`user_id` is missing (or empty), the worker returns the message to the
queue (nack) rather than deleting it: `process_job` returns `False` on a
falsy `user_id` and `None` on an unknown type, both of which `worker_loop`
treats as failure. -/
theorem unknown_type_or_missing_user_nacked
    (st : WState) (job : Job) (fetch : FetchResult) (now : Nat)
    (h : userIdFalsy job = true ∨
      (job.type ≠ "process_file" ∧ job.type ≠ "process_removed_file")) :
    workerAck (processJob st job fetch now).1 = false := by
  rcases h with h | ⟨h1, h2⟩
  · unfold processJob
    rw [if_pos h]
    rfl
  · by_cases hf : userIdFalsy job = true
    · unfold processJob
      rw [if_pos hf]
      rfl
    · unfold processJob
      rw [if_neg (by simpa using hf), if_neg h1, if_neg h2]
      rfl

/-- Closed witness for the amended C3. -/
theorem unknown_type_or_missing_user_nacked_witness :
    workerAck (processJob ⟨[], [], [], []⟩
        ⟨"bogus_type2", some "u1", "s.example", "f1", none⟩ .parseError 3).1 = false :=
  unknown_type_or_missing_user_nacked ⟨[], [], [], []⟩
    ⟨"bogus_type2", some "u1", "s.example", "f1", none⟩ .parseError 3
    (Or.inr ⟨by decide, by decide⟩)

theorem get_file_errors_clear (errors : List (String × String × String))
    (f u : String) :
    get_file_errors (clear_file_errors errors f u) f u = [] := by
  unfold get_file_errors clear_file_errors
  rw [List.filter_filter]
  rw [List.filter_eq_nil_iff]
  intro e _
  by_cases h : e.1 = f ∧ e.2.1 = u <;> simp [h]

/-- C10.  A `process_file` job whose payload yields zero extracted ids
(and whose later steps all run — in the source the vector calls cannot
fail) first logs a `no_ids_found` error row and then, at the end of the
same run, `clear_file_errors` deletes every error row of the file —
including the one just written — so the job acks with an empty error table
for that file. -/
theorem no_ids_found_logged_then_cleared
    (st : WState) (u f site : String) (fetch : FetchResult) (now : Nat)
    (hu : u ≠ "")
    (hfile : st.files.any (fun r => r.file_url == f && r.user_id == u) = true)
    (hids : (extract_schema_data_from_url fetch).1 = []) :
    (processJob st ⟨"process_file", some u, site, f, none⟩ fetch now).1 = some true ∧
    (processJob st ⟨"process_file", some u, site, f, none⟩
        fetch now).2.2.loggedErrors = ["no_ids_found"] ∧
    get_file_errors
      (processJob st ⟨"process_file", some u, site, f, none⟩ fetch now).2.1.errors
      f u = [] := by
  have hfalsy : userIdFalsy ⟨"process_file", some u, site, f, none⟩ = false := by
    simp [userIdFalsy, hu]
  have hlen : (extract_schema_data_from_url fetch).1.length = 0 := by
    simp [hids]
  unfold processJob
  rw [if_neg (by simp [hfalsy])]
  rw [if_pos rfl]
  rw [if_neg (by simp [hfile])]
  refine ⟨rfl, ?_, ?_⟩
  · show (if (extract_schema_data_from_url fetch).1.length = 0
        then ["no_ids_found"] else []) = ["no_ids_found"]
    rw [if_pos hlen]
  · exact get_file_errors_clear _ f u

/-- Closed witness for C10. -/
theorem no_ids_found_logged_then_cleared_witness :
    (processJob
        ⟨[⟨"s.example", "u1", "f1", some "m", none, none, false, true⟩],
         [], [("f1", "u1", "old_error")], []⟩
        ⟨"process_file", some "u1", "s.example", "f1", none⟩
        (.ok (.jarr [])) 9).1 = some true ∧
    (processJob
        ⟨[⟨"s.example", "u1", "f1", some "m", none, none, false, true⟩],
         [], [("f1", "u1", "old_error")], []⟩
        ⟨"process_file", some "u1", "s.example", "f1", none⟩
        (.ok (.jarr [])) 9).2.2.loggedErrors = ["no_ids_found"] ∧
    get_file_errors (processJob
        ⟨[⟨"s.example", "u1", "f1", some "m", none, none, false, true⟩],
         [], [("f1", "u1", "old_error")], []⟩
        ⟨"process_file", some "u1", "s.example", "f1", none⟩
        (.ok (.jarr [])) 9).2.1.errors "f1" "u1" = [] :=
  no_ids_found_logged_then_cleared
    ⟨[⟨"s.example", "u1", "f1", some "m", none, none, false, true⟩],
     [], [("f1", "u1", "old_error")], []⟩
    "u1" "f1" "s.example" (.ok (.jarr [])) 9
    (by decide) (by decide) (by decide)

/-- An object that survived the extraction skip filter can never trigger the
BreadcrumbList re-check (BreadcrumbList is in the skip set). -/
theorem not_skipped_not_breadcrumb (o : JVal)
    (h : shouldSkipByType (jget o "@type") = false) : breadcrumbSkip o = false := by
  unfold breadcrumbSkip
  cases hty : jget o "@type" with
  | none => rfl
  | some t =>
    rw [hty] at h
    cases t with
    | jstr s =>
      simp only [shouldSkipByType] at h
      simp only [Option.getD]
      have hne : s ≠ "BreadcrumbList" := by
        intro he
        subst he
        rw [show skip_types.contains "BreadcrumbList" = true from by decide] at h
        simp at h
      simpa using hne
    | jarr l =>
      simp only [shouldSkipByType] at h
      simp only [Option.getD]
      have hnm : JVal.jstr "BreadcrumbList" ∉ l := by
        intro hm
        rw [List.any_eq_false] at h
        have := h _ hm
        simp [typeInSkip, skip_types] at this
      simpa [List.elem_iff] using hnm
    | jobj fs => rfl
    | jother => rfl

/-- Membership description of the `items_to_add` staging loop, valid when no
object can trip the BreadcrumbList re-check. -/
theorem stageAdds_mem (objects : List JVal) (tbl : List (String × String × JVal))
    (u site : String) (L : List JVal)
    (hobj : ∀ o ∈ objects, breadcrumbSkip o = false) (idv obj : JVal) :
    (idv, site, obj) ∈ stageAdds objects tbl u site L ↔
      idv ∈ L ∧ count_id_references tbl idv u = 1 ∧
        objects.find? (fun o => jget o "@id" == some idv) = some obj := by
  induction L with
  | nil => simp [stageAdds]
  | cons hd rest ih =>
    by_cases hc : count_id_references tbl hd u = 1
    · cases hf : objects.find? (fun o => jget o "@id" == some hd) with
      | none =>
        have hstep : stageAdds objects tbl u site (hd :: rest) =
            stageAdds objects tbl u site rest := by
          simp [stageAdds, hc, hf]
        rw [hstep, ih]
        constructor
        · rintro ⟨hL, hcnt, hfind⟩
          exact ⟨List.mem_cons_of_mem _ hL, hcnt, hfind⟩
        · rintro ⟨hL, hcnt, hfind⟩
          rcases List.mem_cons.mp hL with heq | hL
          · subst heq
            rw [hf] at hfind
            cases hfind
          · exact ⟨hL, hcnt, hfind⟩
      | some o =>
        have hbc : breadcrumbSkip o = false :=
          hobj o (List.mem_of_find?_eq_some hf)
        have hstep : stageAdds objects tbl u site (hd :: rest) =
            (hd, site, o) :: stageAdds objects tbl u site rest := by
          simp [stageAdds, hc, hf, hbc]
        rw [hstep, List.mem_cons, ih]
        constructor
        · rintro (heq | ⟨hL, hcnt, hfind⟩)
          · rw [Prod.mk.injEq, Prod.mk.injEq] at heq
            obtain ⟨h1, -, h3⟩ := heq
            subst h1
            exact ⟨List.mem_cons_self _ _, hc, h3 ▸ hf⟩
          · exact ⟨List.mem_cons_of_mem _ hL, hcnt, hfind⟩
        · rintro ⟨hL, hcnt, hfind⟩
          rcases List.mem_cons.mp hL with heq | hL
          · subst heq
            rw [hf] at hfind
            cases hfind
            exact Or.inl rfl
          · exact Or.inr ⟨hL, hcnt, hfind⟩
    · have hstep : stageAdds objects tbl u site (hd :: rest) =
          stageAdds objects tbl u site rest := by
        simp [stageAdds, hc]
      rw [hstep, ih]
      constructor
      · rintro ⟨hL, hcnt, hfind⟩
        exact ⟨List.mem_cons_of_mem _ hL, hcnt, hfind⟩
      · rintro ⟨hL, hcnt, hfind⟩
        rcases List.mem_cons.mp hL with heq | hL
        · subst heq
          exact absurd hcnt hc
        · exact ⟨hL, hcnt, hfind⟩

/-- C5.  In `process_file`, reference counts gate the index operations: an
id is staged for the vector-DB add batch exactly when the id diff returned
it as added, its per-user reference count on the post-diff `ids` table is
1, and its extracted object is found; an id is staged for the vector-DB
delete batch exactly when the diff returned it as removed and its post-diff
reference count is 0. -/
theorem ref_count_gates_index_ops
    (st : WState) (u f site : String) (fetch : FetchResult) (now : Nat)
    (hu : u ≠ "")
    (hfile : st.files.any (fun r => r.file_url == f && r.user_id == u) = true) :
    (∀ idv obj : JVal,
      (idv, site, obj) ∈
          (processJob st ⟨"process_file", some u, site, f, none⟩
            fetch now).2.2.vecAddItems ↔
        (idv ∈ (update_file_ids st.ids st.files f u
              (extract_schema_data_from_url fetch).1.dedup now).added ∧
         count_id_references (update_file_ids st.ids st.files f u
              (extract_schema_data_from_url fetch).1.dedup now).idsTable idv u = 1 ∧
         (extract_schema_data_from_url fetch).2.find?
            (fun o => jget o "@id" == some idv) = some obj)) ∧
    (∀ idv : JVal,
      idv ∈ ((processJob st ⟨"process_file", some u, site, f, none⟩
            fetch now).2.2.vecDeleteBatches).flatten ↔
        (idv ∈ (update_file_ids st.ids st.files f u
              (extract_schema_data_from_url fetch).1.dedup now).removed ∧
         count_id_references (update_file_ids st.ids st.files f u
              (extract_schema_data_from_url fetch).1.dedup now).idsTable idv u = 0)) := by
  have hfalsy : userIdFalsy ⟨"process_file", some u, site, f, none⟩ = false := by
    simp [userIdFalsy, hu]
  have hobj : ∀ o ∈ (extract_schema_data_from_url fetch).2,
      breadcrumbSkip o = false := fun o ho =>
    not_skipped_not_breadcrumb o (extract_objects_spec fetch o ho).2
  have hflat : ∀ l : List JVal,
      (if l = [] then ([] : List (List JVal)) else [l]).flatten = l := by
    intro l
    by_cases hl : l = []
    · rw [if_pos hl, hl]
      rfl
    · rw [if_neg hl]
      simp
  unfold processJob
  rw [if_neg (by simp [hfalsy])]
  rw [if_pos rfl]
  rw [if_neg (by simp [hfile])]
  by_cases hz : (extract_schema_data_from_url fetch).1.length = 0
  · simp only [hz, if_true]
    refine ⟨fun idv obj => ?_, fun idv => ?_⟩
    · exact stageAdds_mem (extract_schema_data_from_url fetch).2 _ u site _ hobj idv obj
    · rw [hflat]
      unfold stageDeletes
      rw [List.mem_filter]
      simp only [decide_eq_true_eq]
      exact Iff.rfl
  · simp only [hz, if_false]
    refine ⟨fun idv obj => ?_, fun idv => ?_⟩
    · exact stageAdds_mem (extract_schema_data_from_url fetch).2 _ u site _ hobj idv obj
    · rw [hflat]
      unfold stageDeletes
      rw [List.mem_filter]
      simp only [decide_eq_true_eq]
      exact Iff.rfl

/-- Closed witness for C5: a single fresh `Recipe` object is staged for the
add batch. -/
theorem ref_count_gates_index_ops_witness :
    ((JVal.jstr "a", "s.example",
        JVal.jobj [("@id", .jstr "a"), ("@type", .jstr "Recipe")]) ∈
      (processJob
        ⟨[⟨"s.example", "u1", "f1", some "m", none, none, false, true⟩], [], [], []⟩
        ⟨"process_file", some "u1", "s.example", "f1", none⟩
        (.ok (.jarr [.jobj [("@id", .jstr "a"), ("@type", .jstr "Recipe")]])) 4).2.2.vecAddItems) := by
  have h := ref_count_gates_index_ops
    ⟨[⟨"s.example", "u1", "f1", some "m", none, none, false, true⟩], [], [], []⟩
    "u1" "f1" "s.example"
    (.ok (.jarr [.jobj [("@id", .jstr "a"), ("@type", .jstr "Recipe")]])) 4
    (by decide) (by decide)
  exact (h.1 _ _).mpr (by decide)

/-! SHA-256, modelling `hashlib.sha256` as used by vector_db.py.  Machine
words are naturals reduced mod 2^32. -/

/-- Truncate to a 32-bit word. -/
def w32 (n : Nat) : Nat := n % 4294967296

/-- Right rotation of a 32-bit word. -/
def rotr32 (k n : Nat) : Nat := w32 ((n >>> k) ||| (n <<< (32 - k)))

/-- Bitwise complement of a 32-bit word. -/
def not32 (n : Nat) : Nat := 4294967295 - n

/-- SHA-256 Σ₀. -/
def bsig0 (x : Nat) : Nat := (rotr32 2 x) ^^^ (rotr32 13 x) ^^^ (rotr32 22 x)

/-- SHA-256 Σ₁. -/
def bsig1 (x : Nat) : Nat := (rotr32 6 x) ^^^ (rotr32 11 x) ^^^ (rotr32 25 x)

/-- SHA-256 σ₀. -/
def ssig0 (x : Nat) : Nat := (rotr32 7 x) ^^^ (rotr32 18 x) ^^^ (x >>> 3)

/-- SHA-256 σ₁. -/
def ssig1 (x : Nat) : Nat := (rotr32 17 x) ^^^ (rotr32 19 x) ^^^ (x >>> 10)

/-- SHA-256 choice function. -/
def ch (x y z : Nat) : Nat := (x &&& y) ^^^ ((not32 x) &&& z)

/-- SHA-256 majority function. -/
def maj (x y z : Nat) : Nat := (x &&& y) ^^^ (x &&& z) ^^^ (y &&& z)

/-- The 64 SHA-256 round constants. -/
def sha256K : List Nat :=
  [1116352408, 1899447441, 3049323471, 3921009573, 961987163,
   1508970993, 2453635748, 2870763221, 3624381080, 310598401,
   607225278, 1426881987, 1925078388, 2162078206, 2614888103,
   3248222580, 3835390401, 4022224774, 264347078, 604807628,
   770255983, 1249150122, 1555081692, 1996064986, 2554220882,
   2821834349, 2952996808, 3210313671, 3336571891, 3584528711,
   113926993, 338241895, 666307205, 773529912, 1294757372,
   1396182291, 1695183700, 1986661051, 2177026350, 2456956037,
   2730485921, 2820302411, 3259730800, 3345764771, 3516065817,
   3600352804, 4094571909, 275423344, 430227734, 506948616,
   659060556, 883997877, 958139571, 1322822218, 1537002063,
   1747873779, 1955562222, 2024104815, 2227730452, 2361852424,
   2428436474, 2756734187, 3204031479, 3329325298]

/-- The SHA-256 initial hash value. -/
def sha256H0 : List Nat :=
  [1779033703, 3144134277, 1013904242, 2773480762,
   1359893119, 2600822924, 528734635, 1541459225]

/-- Big-endian byte decomposition of a number into `k` bytes. -/
def beBytes (k n : Nat) : List Nat :=
  (List.range k).map fun i => (n >>> (8 * (k - 1 - i))) % 256

/-- Split a byte list into groups of four (the padded message length is a
multiple of 64, so the ragged final case never arises). -/
def fourByteGroups : List Nat → List (List Nat)
  | [] => []
  | a :: b :: c :: d :: rest => [a, b, c, d] :: fourByteGroups rest
  | l => [l]

/-- Split a word list into 16-word blocks (fuel-indexed so the kernel can
evaluate it). -/
def sixteenWordBlocksGo : Nat → List Nat → List (List Nat)
  | 0, _ => []
  | _, [] => []
  | fuel + 1, x :: xs => (x :: xs).take 16 :: sixteenWordBlocksGo fuel ((x :: xs).drop 16)

/-- Split a word list into 16-word blocks. -/
def sixteenWordBlocks (l : List Nat) : List (List Nat) :=
  sixteenWordBlocksGo l.length l

/-- SHA-256 padding: append `0x80`, zeros to 56 mod 64, then the bit length
as 8 big-endian bytes. -/
def padMessage (msg : List Nat) : List Nat :=
  let len := msg.length
  let zeros := (120 - (len + 1) % 64) % 64
  msg ++ [128] ++ List.replicate zeros 0 ++ beBytes 8 (8 * len)

/-- A big-endian 32-bit word from four bytes. -/
def wordOf (bs : List Nat) : Nat := bs.foldl (fun acc x => acc * 256 + x) 0

/-- The SHA-256 message schedule: extend 16 words to 64. -/
def schedW (block : List Nat) : List Nat :=
  (List.range 48).foldl
    (fun acc _ =>
      acc ++ [w32 (ssig1 (acc.getD (acc.length - 2) 0) + acc.getD (acc.length - 7) 0 +
        ssig0 (acc.getD (acc.length - 15) 0) + acc.getD (acc.length - 16) 0)])
    block

/-- One SHA-256 compression round over a 16-word block. -/
def sha256Compress (h : List Nat) (block : List Nat) : List Nat :=
  let w := schedW block
  let stf := (List.range 64).foldl
    (fun (st : Nat × Nat × Nat × Nat × Nat × Nat × Nat × Nat) t =>
      let (a, b, c, d, e, f, g, hh) := st
      let t1 := w32 (hh + bsig1 e + ch e f g + sha256K.getD t 0 + w.getD t 0)
      let t2 := w32 (bsig0 a + maj a b c)
      (w32 (t1 + t2), a, b, c, w32 (d + t1), e, f, g))
    (h.getD 0 0, h.getD 1 0, h.getD 2 0, h.getD 3 0,
     h.getD 4 0, h.getD 5 0, h.getD 6 0, h.getD 7 0)
  [w32 (h.getD 0 0 + stf.1), w32 (h.getD 1 0 + stf.2.1), w32 (h.getD 2 0 + stf.2.2.1),
   w32 (h.getD 3 0 + stf.2.2.2.1), w32 (h.getD 4 0 + stf.2.2.2.2.1),
   w32 (h.getD 5 0 + stf.2.2.2.2.2.1), w32 (h.getD 6 0 + stf.2.2.2.2.2.2.1),
   w32 (h.getD 7 0 + stf.2.2.2.2.2.2.2)]

/-- SHA-256 of a byte string, as 32 digest bytes. -/
def sha256Bytes (msg : List Nat) : List Nat :=
  let blocks := sixteenWordBlocks ((fourByteGroups (padMessage msg)).map wordOf)
  (blocks.foldl sha256Compress sha256H0).flatMap (beBytes 4)

/-- A lowercase hexadecimal digit. -/
def hexChar (n : Nat) : Char :=
  if n < 10 then Char.ofNat (48 + n) else Char.ofNat (87 + n)

/-- `hexdigest()`: the digest bytes as lowercase hex. -/
def bytesToHex (bs : List Nat) : String :=
  String.mk (bs.flatMap fun b => [hexChar (b / 16), hexChar (b % 16)])

/-- `id.encode('utf-8')`: the UTF-8 bytes of a string. -/
def utf8Bytes (s : String) : List Nat :=
  (s.data.flatMap String.utf8EncodeChar).map fun b => b.toNat

set_option maxRecDepth 8000 in
/-- FIPS 180-4 test vector: the model agrees with `hashlib.sha256` on
`"abc"`. -/
theorem sha256_test_vector_abc :
    bytesToHex (sha256Bytes (utf8Bytes "abc")) =
      "ba7816bf8f01cfea414140de5dae2223b00361a396177a9cb410ff61f20015ad" := by
  decide

/-- The Azure Search document key computed by `VectorDB._prepare_document`
(vector_db.py line 159):
`hashlib.sha256(id.encode('utf-8')).hexdigest()[:32]`. -/
def prepareDocumentKey (idv : String) : String :=
  (bytesToHex (sha256Bytes (utf8Bytes idv))).take 32

/-- The document key computed by `VectorDB.batch_delete` (vector_db.py line
226): `hashlib.sha256(id.encode('utf-8')).hexdigest()[:32]`. -/
def batchDeleteKey (idv : String) : String :=
  (bytesToHex (sha256Bytes (utf8Bytes idv))).take 32

/-- C9.  For every id string, the document key used by `batch_delete`
equals the key stored by `batch_add` via `_prepare_document`, and both are
the first 32 hexadecimal characters of the SHA-256 digest of the id's
UTF-8 encoding — so an add followed by a delete of the same id targets the
same document. -/
theorem index_delete_key_matches_add_key (idv : String) :
    batchDeleteKey idv = prepareDocumentKey idv ∧
    prepareDocumentKey idv = (bytesToHex (sha256Bytes (utf8Bytes idv))).take 32 :=
  ⟨rfl, rfl⟩

end Crawler
